import Mathlib

/-!
Verification development for the Old-School-Game repository's AI gateway
subsystem: the level validator (`src/game/ai/levelValidator.js`), the adaptive
difficulty engine (`src/game/ai/difficultyEngine.js`), the input sanitizer
(`src/utils/sanitize.js`), and the Express proxy server (rate limiter, NPC
dialog cache and level-JSON extraction).

The JavaScript semantics is modelled shallowly:
* JS numbers are `JNum`: NaN, the two infinities, or a finite value carried as
  a rational.  Finite arithmetic is exact (IEEE-754 rounding is not modelled;
  no property below depends on rounding).
* JS values are `JSVal`: undefined, null, booleans, numbers, strings, arrays
  and plain objects (an object is an ordered association list, mirroring JS
  property insertion order).  Functions do not occur in the data handled by
  the modelled code.
* Code that can throw a TypeError (property access on null/undefined, calling
  `.filter` on a non-array, assigning a property of a primitive in strict
  mode) is modelled in `Except Unit`.
-/

/-- A JavaScript number: NaN, +Infinity, -Infinity, or a finite value
(modelled as an exact rational; IEEE-754 rounding is not modelled). -/
inductive JNum where
  | nan : JNum
  | posInf : JNum
  | negInf : JNum
  | fin : ℚ → JNum
deriving DecidableEq

namespace JNum

/-- JS `<`: any comparison with NaN is false. -/
def jlt : JNum → JNum → Bool
  | nan, _ => false
  | _, nan => false
  | negInf, negInf => false
  | negInf, _ => true
  | _, negInf => false
  | posInf, _ => false
  | fin _, posInf => true
  | fin a, fin b => decide (a < b)

/-- JS `>`: any comparison with NaN is false. -/
def jgt (a b : JNum) : Bool := jlt b a

/-- JS `<=`: false whenever either side is NaN (not the negation of `>`). -/
def jle : JNum → JNum → Bool
  | nan, _ => false
  | _, nan => false
  | negInf, _ => true
  | _, negInf => false
  | _, posInf => true
  | posInf, fin _ => false
  | fin a, fin b => decide (a ≤ b)

/-- JS `>=`: false whenever either side is NaN. -/
def jge (a b : JNum) : Bool := jle b a

/-- JS `===` on numbers: NaN is not equal to anything, including itself. -/
def jeq : JNum → JNum → Bool
  | nan, _ => false
  | _, nan => false
  | posInf, posInf => true
  | negInf, negInf => true
  | fin a, fin b => decide (a = b)
  | _, _ => false

/-- JS addition. -/
def jadd : JNum → JNum → JNum
  | nan, _ => nan
  | _, nan => nan
  | posInf, negInf => nan
  | negInf, posInf => nan
  | posInf, _ => posInf
  | _, posInf => posInf
  | negInf, _ => negInf
  | _, negInf => negInf
  | fin a, fin b => fin (a + b)

/-- JS subtraction. -/
def jsub : JNum → JNum → JNum
  | nan, _ => nan
  | _, nan => nan
  | posInf, posInf => nan
  | negInf, negInf => nan
  | posInf, _ => posInf
  | negInf, _ => negInf
  | fin _, posInf => negInf
  | fin _, negInf => posInf
  | fin a, fin b => fin (a - b)

/-- JS multiplication (the model has no signed zero; `0 * ±∞` is NaN as in JS). -/
def jmul : JNum → JNum → JNum
  | nan, _ => nan
  | _, nan => nan
  | posInf, posInf => posInf
  | posInf, negInf => negInf
  | negInf, posInf => negInf
  | negInf, negInf => posInf
  | posInf, fin b => if b = 0 then nan else if 0 < b then posInf else negInf
  | fin a, posInf => if a = 0 then nan else if 0 < a then posInf else negInf
  | negInf, fin b => if b = 0 then nan else if 0 < b then negInf else posInf
  | fin a, negInf => if a = 0 then nan else if 0 < a then negInf else posInf
  | fin a, fin b => fin (a * b)

/-- JS division (the model's only zero is +0, so `x/0` follows the sign of x). -/
def jdiv : JNum → JNum → JNum
  | nan, _ => nan
  | _, nan => nan
  | posInf, posInf => nan
  | posInf, negInf => nan
  | negInf, posInf => nan
  | negInf, negInf => nan
  | posInf, fin b => if 0 ≤ b then posInf else negInf
  | negInf, fin b => if 0 ≤ b then negInf else posInf
  | fin _, posInf => fin 0
  | fin _, negInf => fin 0
  | fin a, fin b =>
      if b = 0 then (if a = 0 then nan else if 0 < a then posInf else negInf)
      else fin (a / b)

/-- JS `Math.abs`. -/
def jabs : JNum → JNum
  | nan => nan
  | posInf => posInf
  | negInf => posInf
  | fin a => fin |a|

/-- JS `Math.max` of two numbers: NaN if either argument is NaN. -/
def jmax (a b : JNum) : JNum :=
  if a = nan ∨ b = nan then nan else if jlt a b then b else a

/-- JS `Math.min` of two numbers: NaN if either argument is NaN. -/
def jmin (a b : JNum) : JNum :=
  if a = nan ∨ b = nan then nan else if jlt b a then b else a

/-- Truthiness of a number: `0` and `NaN` are falsy (the model has no `-0`). -/
def truthy : JNum → Bool
  | nan => false
  | fin a => decide (a ≠ 0)
  | _ => true

/-- Whether the number, viewed as an array-sort comparator result, is
positive.  `Array.prototype.sort` treats a NaN comparator result as 0
(SortCompare), so NaN is not positive. -/
def isPos : JNum → Bool
  | posInf => true
  | fin a => decide (0 < a)
  | _ => false

end JNum

/-- A JavaScript value, as produced by `JSON.parse` and handled by the
modelled code: undefined, null, booleans, numbers, strings, arrays and plain
objects.  An object is its ordered own-property list (JS objects preserve
string-key insertion order). -/
inductive JSVal where
  | undef : JSVal
  | null : JSVal
  | bool : Bool → JSVal
  | num : JNum → JSVal
  | str : String → JSVal
  | arr : List JSVal → JSVal
  | obj : List (String × JSVal) → JSVal

namespace JSVal

/-- JS truthiness: undefined, null, false, 0, NaN and "" are falsy; every
object and array (empty or not) is truthy. -/
def jsTruthy : JSVal → Bool
  | undef => false
  | null => false
  | bool b => b
  | num n => n.truthy
  | str s => decide (s ≠ "")
  | arr _ => true
  | obj _ => true

/-- Whether `typeof v === 'object'` holds: true for null, arrays and objects. -/
def typeofIsObject : JSVal → Bool
  | null => true
  | arr _ => true
  | obj _ => true
  | _ => false

/-- Whether `typeof v === 'number'` holds. -/
def isNumber : JSVal → Bool
  | num _ => true
  | _ => false

/-- Whether `typeof v === 'string'` holds. -/
def isString : JSVal → Bool
  | str _ => true
  | _ => false

/-- Whether `Array.isArray(v)` holds. -/
def isArr : JSVal → Bool
  | arr _ => true
  | _ => false

/-- The number carried by a `num` value (only used where the surrounding code
has already established `typeof v === 'number'`). -/
def asNum : JSVal → JNum
  | num n => n
  | _ => JNum.nan

/-- `v === "s"` for a string literal `"s"` (JS strict equality). -/
def isStrEq : JSVal → String → Bool
  | str s, t => s = t
  | _, _ => false

/-- Total property read `v.k`: the named own property of an object, and
`undefined` everywhere else.  Used only where the source cannot throw (the
receiver is known non-nullish); the throwing read is `getF` below.  Array
and string index properties are irrelevant to the accessed names (`x`, `y`,
`width`, ... are not index or prototype properties of the handled values). -/
def getFD : JSVal → String → JSVal
  | obj fs, k => match fs.lookup k with
    | some v => v
    | none => undef
  | _, _ => undef

/-- Property read `v.k` as an operation that can throw: on null and undefined
it raises a TypeError (`Except.error`); every other receiver yields `getFD`. -/
def getF : JSVal → String → Except Unit JSVal
  | null, _ => .error ()
  | undef, _ => .error ()
  | v, k => .ok (getFD v k)

/-- Optional-chain read `v?.k`: undefined when `v` is nullish. -/
def getOpt : JSVal → String → JSVal
  | null, _ => undef
  | undef, _ => undef
  | v, k => getFD v k

/-- `a || d` (JS logical or): the left value when truthy, otherwise `d`. -/
def orDefault (a d : JSVal) : JSVal := if a.jsTruthy then a else d

end JSVal

/-- Set (or add) a key in an ordered association list: an existing key keeps
its position (as a JS property write does), a new key is appended. -/
def setAssoc {α : Type} (k : String) (v : α) : List (String × α) → List (String × α)
  | [] => [(k, v)]
  | (k', v') :: t => if k' = k then (k, v) :: t else (k', v') :: setAssoc k v t

namespace JSVal

/-- Total property write `v.k = x` for objects; other receivers are returned
unchanged (the callers below only reach this with an object receiver). -/
def objSet : JSVal → String → JSVal → JSVal
  | obj fs, k, v => obj (setAssoc k v fs)
  | other, _, _ => other

/-- Property write `v.k = x` as an operation that can throw: the modelled
source files are ES modules (strict mode), where assigning a property of a
primitive, null or undefined raises a TypeError.  Arrays accept named
property writes in JS, but no modelled write ever reaches an array (the
writes are guarded by `typeof e.x === 'number'`, which no array satisfies),
so the array case is grouped with the error case. -/
def objSetE : JSVal → String → JSVal → Except Unit JSVal
  | obj fs, k, v => .ok (obj (setAssoc k v fs))
  | _, _, _ => .error ()

end JSVal

/-- Calling `.filter`/`.map` on the value: succeeds exactly on arrays (on any
other receiver JS throws "v.filter is not a function"). -/
def asArray : JSVal → Except Unit (List JSVal)
  | .arr xs => .ok xs
  | _ => .error ()

/-- `v || []` as it feeds a `.filter` call: the value itself when truthy,
otherwise a fresh empty array. -/
def orEmptyArr (v : JSVal) : JSVal := if v.jsTruthy then v else .arr []

/-- Monadic filter, processing elements left to right exactly as
`Array.prototype.filter` calls its callback (the callback may throw). -/
def filterE (f : JSVal → Except Unit Bool) : List JSVal → Except Unit (List JSVal)
  | [] => .ok []
  | a :: as => do
      let b ← f a
      let rest ← filterE f as
      pure (if b then a :: rest else rest)

/-- Monadic map, left to right. -/
def mapE {α : Type} (f : JSVal → Except Unit α) : List JSVal → Except Unit (List α)
  | [] => .ok []
  | a :: as => do
      let b ← f a
      let rest ← mapE f as
      pure (b :: rest)

/-! ## Level validator (`src/game/ai/levelValidator.js`)

Constants from `src/utils/constants.js` (`LEVEL`). -/

def MAX_PLATFORMS : Nat := 50

def MAX_ENEMIES : Nat := 15

def MAX_COINS : Nat := 30

/-- `LEVEL.MIN_PLATFORM_WIDTH = 2`, as the number it is compared with. -/
def MIN_PLATFORM_WIDTH : JNum := .fin 2

/-- `LEVEL.MAX_GAP = 8`. -/
def MAX_GAP : JNum := .fin 8

/-- The validation error messages, as an inductive tag carrying the data the
source interpolates into the message string (the exact text of a message is
never branched on; `valid` only depends on whether any error was pushed). -/
inductive VError where
  | notAnObject : VError
  | noPlatforms : VError
  | tooManyPlatforms : Nat → VError
  | noValidPlatforms : VError
  | badSpawnPoint : VError
  | badGoalPosition : VError
  | unreachableGap : Nat → JNum → VError
deriving DecidableEq

/-- The `ValidationResult` shape `{valid, errors, data}` (`data` is null on
failure, modelled as `none`). -/
structure VResult where
  valid : Bool
  errors : List VError
  data : Option JSVal

/-- The filter predicate over `rawData.platforms` (levelValidator.js:39-44):
numeric x and y, numeric width not below the minimum, y within [-5, 15].
Property reads on a null/undefined element throw. -/
def platformOk (p : JSVal) : Except Unit Bool := do
  let px ← p.getF "x"
  let py ← p.getF "y"
  if !px.isNumber || !py.isNumber then pure false
  else do
    let pw ← p.getF "width"
    if !pw.isNumber || JNum.jlt pw.asNum MIN_PLATFORM_WIDTH then pure false
    else if JNum.jlt py.asNum (.fin (-5)) || JNum.jgt py.asNum (.fin 15) then pure false
    else pure true

/-- One step of the `rawData.enemies` filter (levelValidator.js:62-67).  It
returns (kept?, the element after the filter ran): the callback MUTATES the
element, overwriting a behavior outside the whitelist with "patrol" before
returning true.  The write `e.behavior = ...` is only reached after
`typeof e.x === 'number'` succeeded, so the receiver is a plain object. -/
def enemyStep (e : JSVal) : Except Unit (Bool × JSVal) := do
  let ex ← e.getF "x"
  let ey ← e.getF "y"
  if !ex.isNumber || !ey.isNumber then pure (false, e)
  else do
    let et ← e.getF "type"
    if !(et.isStrEq "goomba" || et.isStrEq "koopa") then pure (false, e)
    else do
      let eb ← e.getF "behavior"
      if eb.isStrEq "patrol" || eb.isStrEq "chase" then pure (true, e)
      else do
        let e2 ← e.objSetE "behavior" (.str "patrol")
        pure (true, e2)

/-- The filter predicate over `rawData.coins` (levelValidator.js:72). -/
def coinOk (c : JSVal) : Except Unit Bool := do
  let cx ← c.getF "x"
  let cy ← c.getF "y"
  pure (cx.isNumber && cy.isNumber)

/-- `{...c, z: 0, collected: false}` (levelValidator.js:73): a copy of the
coin with `z` and `collected` overridden.  Only reached for plain objects
(the filter required numeric `c.x`). -/
def normCoin (c : JSVal) : JSVal :=
  match c with
  | .obj fs => .obj (setAssoc "collected" (.bool false) (setAssoc "z" (.num (.fin 0)) fs))
  | _ => .obj [("z", .num (.fin 0)), ("collected", .bool false)]

/-- The platform's `x` as used by the sort comparator and the gap check
(every element reaching these passed the filter, so `x` is a number). -/
def xOf (p : JSVal) : JNum := (p.getFD "x").asNum

def yOf (p : JSVal) : JNum := (p.getFD "y").asNum

def wOf (p : JSVal) : JNum := (p.getFD "width").asNum

/-- Insert into a sorted prefix for the comparator `(a, b) => a.x - b.x`:
`a` is placed before the first element `b` with `b.x - a.x > 0` (SortCompare
treats a NaN comparator result as 0, and the ES2023 sort is stable, so an
element compared equal keeps the earlier-inserted element first). -/
def insertPlat (a : JSVal) : List JSVal → List JSVal
  | [] => [a]
  | b :: bs =>
      if JNum.isPos (JNum.jsub (xOf b) (xOf a)) then a :: b :: bs
      else b :: insertPlat a bs

/-- `[...validPlatforms].sort((a, b) => a.x - b.x)` (levelValidator.js:77)
as a stable insertion sort.  When some `x` is NaN the comparator is
inconsistent and the ES order is implementation-defined; this model fixes one
deterministic order (no proved property depends on the order among NaN-x
elements, only on the sort being a deterministic function of the x-sequence). -/
def sortPlats (l : List JSVal) : List JSVal := l.foldl (fun acc a => insertPlat a acc) []

/-- The reachability loop (levelValidator.js:78-87) over the sorted
platforms: `i` is the loop index of the current element, `prev` the previous
one.  The error is pushed when `gap > MAX_GAP && heightDiff < 4`. -/
def gapErrorsAux : Nat → JSVal → List JSVal → List VError
  | _, _, [] => []
  | i, prev, curr :: rest =>
      let prevEnd := JNum.jadd (xOf prev) (JNum.jdiv (wOf prev) (.fin 2))
      let currStart := JNum.jsub (xOf curr) (JNum.jdiv (wOf curr) (.fin 2))
      let gap := JNum.jsub currStart prevEnd
      let heightDiff := JNum.jabs (JNum.jsub (yOf curr) (yOf prev))
      (if JNum.jgt gap MAX_GAP && JNum.jlt heightDiff (.fin 4)
       then [VError.unreachableGap i gap] else [])
        ++ gapErrorsAux (i + 1) curr rest

def gapErrors : List JSVal → List VError
  | [] => []
  | p :: rest => gapErrorsAux 1 p rest

/-- JS `ToNumber` of the values that can reach `Math.max(1, rawData.difficulty
|| 1)`: primitives are converted exactly; a numeric-string grammar is modelled
for plain decimal/Infinity forms.  Objects and arrays convert through
`toString` (almost always NaN; an array whose join is numeric is approximated
as NaN — no claim exercises the difficulty coercion of non-primitive values,
and the computed difficulty feeds no validation decision). -/
def strToNumberCore (l : List Char) : Option ℚ :=
  let digits := l.takeWhile Char.isDigit
  let rest := l.drop digits.length
  let intPart : ℚ := digits.foldl (fun a c => a * 10 + (c.toNat - 48 : ℕ)) 0
  match rest with
  | [] => if digits.isEmpty then none else some intPart
  | '.' :: frac =>
      let fdigits := frac.takeWhile Char.isDigit
      if frac.drop fdigits.length ≠ [] then none
      else if digits.isEmpty ∧ fdigits.isEmpty then none
      else
        let fval : ℚ := fdigits.foldr (fun c a => (a + (c.toNat - 48 : ℕ)) / 10) 0
        some (intPart + fval)
  | _ => none

/-- JS string-to-number: trimmed; empty → 0; an optional sign and a decimal
literal or `Infinity` (the exponent and radix-prefixed forms of the full JS
grammar are omitted; nothing in the claims feeds such a string here). -/
def strToNumber (s : String) : JNum :=
  let l := (s.trim).data
  match l with
  | [] => .fin 0
  | '+' :: t => if t = "Infinity".data then .posInf else
      match strToNumberCore t with | some q => .fin q | none => .nan
  | '-' :: t => if t = "Infinity".data then .negInf else
      match strToNumberCore t with | some q => .fin (-q) | none => .nan
  | t => if t = "Infinity".data then .posInf else
      match strToNumberCore t with | some q => .fin q | none => .nan

def toNumber : JSVal → JNum
  | .undef => .nan
  | .null => .fin 0
  | .bool b => if b then .fin 1 else .fin 0
  | .num n => n
  | .str s => strToNumber s
  | .arr _ => .nan
  | .obj _ => .nan

/-- One output platform (levelValidator.js:98-106): x, y kept, z forced to 0,
width raised to the minimum via `Math.max`, `height`/`depth` defaulted through
`||`, and `type` replaced by "grass" unless whitelisted. -/
def normPlatform (p : JSVal) : JSVal :=
  .obj [("x", p.getFD "x"),
        ("y", p.getFD "y"),
        ("z", .num (.fin 0)),
        ("width", .num (JNum.jmax (p.getFD "width").asNum MIN_PLATFORM_WIDTH)),
        ("height", (p.getFD "height").orDefault (.num (.fin 1))),
        ("depth", (p.getFD "depth").orDefault (.num (.fin 4))),
        ("type",
          let t := p.getFD "type"
          if t.isStrEq "grass" || t.isStrEq "brick" || t.isStrEq "stone"
             || t.isStrEq "ice" || t.isStrEq "lava" then t else .str "grass")]

/-- One output enemy (levelValidator.js:108-114): x, y, type, behavior read
back from the (possibly mutated) element, z forced to 0. -/
def outEnemy (e : JSVal) : JSVal :=
  .obj [("x", e.getFD "x"),
        ("y", e.getFD "y"),
        ("z", .num (.fin 0)),
        ("type", e.getFD "type"),
        ("behavior", e.getFD "behavior")]

/-- The sanitized `data` object (levelValidator.js:97-126). -/
def mkLevelData (raw : JSVal) (validPlats validEnemies validCoins : List JSVal) : JSVal :=
  .obj [("platforms", .arr (validPlats.map normPlatform)),
        ("coins", .arr validCoins),
        ("enemies", .arr (validEnemies.map outEnemy)),
        ("difficulty", .num (JNum.jmin (.fin 10)
          (JNum.jmax (.fin 1) (toNumber ((raw.getFD "difficulty").orDefault (.num (.fin 1))))))),
        ("spawnPoint", .obj [
          ("x", ((raw.getFD "spawnPoint").getOpt "x").orDefault (.num (.fin 2))),
          ("y", ((raw.getFD "spawnPoint").getOpt "y").orDefault (.num (.fin 2))),
          ("z", .num (.fin 0))]),
        ("goalPosition", .obj [
          ("x", ((raw.getFD "goalPosition").getOpt "x").orDefault (.num (.fin 80))),
          ("y", ((raw.getFD "goalPosition").getOpt "y").orDefault (.num (.fin 0))),
          ("z", .num (.fin 0))])]

/-- The length of the raw platforms value when it is an array. -/
def arrLen : JSVal → Nat
  | .arr xs => xs.length
  | _ => 0

/-- The platform-count errors (levelValidator.js:32-36). -/
def platCountErrs (raw : JSVal) : List VError :=
  let pv := raw.getFD "platforms"
  if !pv.isArr || arrLen pv == 0 then [.noPlatforms]
  else if arrLen pv > MAX_PLATFORMS then [.tooManyPlatforms (arrLen pv)]
  else []

/-- The no-valid-platform error (levelValidator.js:46-48), pushed only when
no platform error was already recorded. -/
def noValidPlatErrs (validPlats : List JSVal) (errsPlat : List VError) : List VError :=
  if validPlats.isEmpty && errsPlat.isEmpty then [.noValidPlatforms] else []

/-- The spawn-point / goal-position error (levelValidator.js:51-58): the
point must be truthy with a numeric `x`. -/
def pointErrs (raw : JSVal) (k : String) (e : VError) : List VError :=
  let v := raw.getFD k
  if !v.jsTruthy || !(v.getFD "x").isNumber then [e] else []

/-- The caller-visible value of the argument after the call: when
`rawData.enemies` is an array, its elements are the (possibly mutated)
filter-callback outputs; otherwise the argument is untouched. -/
def rawOutOf (raw : JSVal) (steps : List (Bool × JSVal)) : JSVal :=
  match raw.getFD "enemies" with
  | .arr _ => raw.objSet "enemies" (.arr (steps.map (·.2)))
  | _ => raw

/-- Everything after the throwing extractions of `validateLevelData`, as a
pure function of the extracted lists: error recording (in source push order),
capping, the reachability check, result assembly, and the caller-visible
final state of the argument (its `enemies` elements after the filter's
in-place mutation). -/
def assembleResult (raw : JSVal) (validPlats : List JSVal)
    (steps : List (Bool × JSVal)) (coinsKept : List JSVal) : VResult × JSVal :=
  let validEnemies := ((steps.filter (·.1)).map (·.2)).take MAX_ENEMIES
  let validCoins := (coinsKept.map normCoin).take MAX_COINS
  let errors := platCountErrs raw ++ noValidPlatErrs validPlats (platCountErrs raw) ++
    pointErrs raw "spawnPoint" .badSpawnPoint ++
    pointErrs raw "goalPosition" .badGoalPosition ++ gapErrors (sortPlats validPlats)
  if errors.isEmpty then
    ({ valid := true, errors := [],
       data := some (mkLevelData raw validPlats validEnemies validCoins) },
     rawOutOf raw steps)
  else
    ({ valid := false, errors := errors, data := none }, rawOutOf raw steps)

/-- `validateLevelData` (levelValidator.js:24-128).  The result pairs the
returned `ValidationResult` with the caller-visible value of the argument
after the call (the enemies filter mutates it); `.error ()` is the call
throwing a TypeError.  The pure parts (error recording, assembly) are
gathered in `assembleResult`; the throwing parts (`.filter` on a non-array,
element property reads on null/undefined, the strict-mode property write) are
sequenced here in source order. -/
def validateLevelData (rawData : JSVal) : Except Unit (VResult × JSVal) :=
  if !rawData.jsTruthy || !rawData.typeofIsObject then
    .ok ({ valid := false, errors := [.notAnObject], data := none }, rawData)
  else do
    let platList ← asArray (orEmptyArr (rawData.getFD "platforms"))
    let validPlats ← filterE platformOk platList
    let enemyList ← asArray (orEmptyArr (rawData.getFD "enemies"))
    let steps ← mapE enemyStep enemyList
    let coinList ← asArray (orEmptyArr (rawData.getFD "coins"))
    let coinsKept ← filterE coinOk coinList
    pure (assembleResult rawData validPlats steps coinsKept)

/-! ## Input sanitizer (`src/utils/sanitize.js`)

The seven `INJECTION_PATTERNS` regexes are modelled as explicit scanners over
`List Char`.  Each pattern's scanner walks the text left to right exactly as
a global `String.replace` does: at each position it attempts the (determinised)
regex; on a match it drops the matched span and resumes after it, otherwise it
keeps the character and advances one position.  Case-insensitive matching is
ASCII case folding (the patterns are ASCII; the exotic corners of JS
canonicalisation under /i do not intersect them).  JS string indices are
UTF-16 code units while `List Char` is code points; the difference only
affects where truncation cuts a string containing astral characters, which no
property below depends on. -/

/-- JS `\s` (also the `String.prototype.trim` set): ASCII whitespace, NBSP,
BOM, the Unicode space separators and the line terminators. -/
def isJsWs (c : Char) : Bool :=
  c = ' ' || c = '\t' || c = '\n' || c = '\r' ||
  c = '\x0b' || c = '\x0c' || c = '\u00a0' ||
  c = '\u1680' || ( '\u2000' ≤ c && c ≤ '\u200a') ||
  c = '\u2028' || c = '\u2029' || c = '\u202f' || c = '\u205f' ||
  c = '\u3000' || c = '\ufeff'

/-- A JS LineTerminator (what `.` without the s flag does not match). -/
def isLineTerm (c : Char) : Bool :=
  c = '\n' || c = '\r' || c = '\u2028' || c = '\u2029'

/-- A regex word character `\w = [A-Za-z0-9_]`. -/
def isWordChar (c : Char) : Bool :=
  ('a' ≤ c && c ≤ 'z') || ('A' ≤ c && c ≤ 'Z') || ('0' ≤ c && c ≤ '9') || c = '_'

/-- ASCII lower-casing, for /i matching of the ASCII patterns. -/
def lowerAscii (c : Char) : Char :=
  if 'A' ≤ c && c ≤ 'Z' then Char.ofNat (c.toNat + 32) else c

/-- Strip a (lower-case, non-empty) literal pattern from the head of the
text, ASCII-case-insensitively; `some rest` on success. -/
def ciPrefixStrip : List Char → List Char → Option (List Char)
  | [], l => some l
  | _ :: _, [] => none
  | p :: ps, c :: cs => if lowerAscii c = p then ciPrefixStrip ps cs else none

/-- `\s+`: at least one whitespace character, matched greedily (the patterns
continue with a non-whitespace literal, so maximal munch loses no match). -/
def ws1 : List Char → Option (List Char)
  | [] => none
  | c :: cs => if isJsWs c then some (cs.dropWhile isJsWs) else none

/-- Pattern 1, `/ignore\s+(all\s+)?previous\s+instructions/gi`, attempted at
the head of the text.  The optional group is taken greedily; if the group
matches but `previous` then fails, the regex's fallback (skipping the group)
would also fail, since the text at that point starts with `all`, not
`previous` — so no backtracking is needed. -/
def try1 (l : List Char) : Option (List Char) := do
  let r1 ← ciPrefixStrip "ignore".data l
  let r2 ← ws1 r1
  let r3 := match (do ws1 (← ciPrefixStrip "all".data r2) : Option (List Char)) with
    | some a => a
    | none => r2
  let r4 ← ciPrefixStrip "previous".data r3
  let r5 ← ws1 r4
  ciPrefixStrip "instructions".data r5

/-- Pattern 2, `/you\s+are\s+now/gi`, attempted at the head. -/
def try2 (l : List Char) : Option (List Char) := do
  let r1 ← ciPrefixStrip "you".data l
  let r2 ← ws1 r1
  let r3 ← ciPrefixStrip "are".data r2
  let r4 ← ws1 r3
  ciPrefixStrip "now".data r4

/-- Pattern 3, `/system\s*:\s*/gi`, attempted at the head. -/
def try3 (l : List Char) : Option (List Char) := do
  let r1 ← ciPrefixStrip "system".data l
  match r1.dropWhile isJsWs with
  | ':' :: r2 => some (r2.dropWhile isJsWs)
  | _ => none

/-- `you` with a word boundary on each side, attempted at the head of `seg`
whose preceding character is `before`. -/
def youAt (before : Char) (seg : List Char) : Option (List Char) :=
  if isWordChar before then none
  else match ciPrefixStrip "you".data seg with
    | none => none
    | some rest =>
        match rest with
        | c :: _ => if isWordChar c then none else some rest
        | [] => some rest

/-- The greedy `.*\byou\b` tail of pattern 4: the rest of the text after the
LAST boundary-delimited `you` that is reachable from the current position
without crossing a line terminator (`.` does not match line terminators). -/
def findYouAux : Nat → Char → List Char → Option (List Char)
  | 0, _, _ => none
  | _ + 1, _, [] => none
  | f + 1, prevc, c :: rest =>
      match (if isLineTerm c then none else findYouAux f c rest) with
      | some r => some r
      | none => youAt prevc (c :: rest)

/-- Pattern 4, `/\bpretend\b.*\byou\b/gi`, attempted at the head given the
original character preceding this position (`none` at the start of the
text).  On success returns the last character of the match (a `u`, a word
character either way — only `isWordChar` of it is ever consulted) and the
rest of the text, mirroring how a global replace resumes after the match. -/
def try4 (prev : Option Char) (l : List Char) : Option (Char × List Char) :=
  let prevW := match prev with
    | some c => isWordChar c
    | none => false
  if prevW then none
  else match ciPrefixStrip "pretend".data l with
    | none => none
    | some r =>
        match r with
        | c :: _ =>
            if isWordChar c then none
            else match findYouAux r.length 'd' r with
              | some rest => some ('u', rest)
              | none => none
        | [] => none

/-- Global-replace driver for a context-free pattern: at each position try
the pattern; on a match drop it and resume after it, otherwise keep the
character.  Every successful match consumes at least one character, so a fuel
of the text's length always suffices (on exhaustion the remaining text is
kept unchanged). -/
def scanRepl (tryM : List Char → Option (List Char)) : Nat → List Char → List Char
  | 0, l => l
  | _ + 1, [] => []
  | f + 1, c :: rest =>
      match tryM (c :: rest) with
      | some rem => scanRepl tryM f rem
      | none => c :: scanRepl tryM f rest

def runPat (tryM : List Char → Option (List Char)) (l : List Char) : List Char :=
  scanRepl tryM l.length l

/-- Global-replace driver for a pattern that consults the preceding original
character (word boundaries): the pattern returns the last character of its
match so scanning can resume with the correct context. -/
def scanReplCtx (tryM : Option Char → List Char → Option (Char × List Char)) :
    Nat → Option Char → List Char → List Char
  | 0, _, l => l
  | _ + 1, _, [] => []
  | f + 1, prev, c :: rest =>
      match tryM prev (c :: rest) with
      | some (lastc, rem) => scanReplCtx tryM f (some lastc) rem
      | none => c :: scanReplCtx tryM f (some c) rest

def runPatCtx (tryM : Option Char → List Char → Option (Char × List Char))
    (l : List Char) : List Char :=
  scanReplCtx tryM l.length none l

/-- First index at which `pat` occurs as a contiguous sublist. -/
def findSubIdx (pat : List Char) : List Char → Option Nat
  | [] => if pat.isEmpty then some 0 else none
  | c :: rest =>
      if pat.isPrefixOf (c :: rest) then some 0
      else (findSubIdx pat rest).map (· + 1)

/-- Last index at which `pat` occurs as a contiguous sublist. -/
def lastSubIdx (pat : List Char) : List Char → Option Nat
  | [] => if pat.isEmpty then some 0 else none
  | c :: rest =>
      match lastSubIdx pat rest with
      | some i => some (i + 1)
      | none => if pat.isPrefixOf (c :: rest) then some 0 else none

/-- Pattern 5, `/```[\s\S]*```/g`.  Greedy: the single possible match runs
from the first ``` occurrence to the end of the last one, provided they are
disjoint; with no disjoint pair the regex does not match at all (the global
scan finds no further match after the removal, since no ``` occurrence starts
after the last one). -/
def stripFences (l : List Char) : List Char :=
  match findSubIdx "```".data l, lastSubIdx "```".data l with
  | some i, some j => if i + 3 ≤ j then l.take i ++ l.drop (j + 3) else l
  | _, _ => l

/-- Case-insensitive first occurrence index of a (lower-case) pattern. -/
def findSubCIIdx (pat : List Char) : List Char → Option Nat
  | [] => if pat.isEmpty then some 0 else none
  | c :: rest =>
      if (ciPrefixStrip pat (c :: rest)).isSome then some 0
      else (findSubCIIdx pat rest).map (· + 1)

/-- Pattern 6, `/<script[\s\S]*?<\/script>/gi`, attempted at the head: from
`<script` lazily to the nearest following `</script>`. -/
def try6 (l : List Char) : Option (List Char) :=
  match ciPrefixStrip "<script".data l with
  | none => none
  | some r =>
      match findSubCIIdx "</script>".data r with
      | some m => some (r.drop (m + 9))
      | none => none

/-- Pattern 7, `/<[^>]+>/g`: at a `<`, the match runs to the first following
`>` provided at least one character lies between; `<>` and a `<` with no
later `>` do not match and the scan advances one character. -/
def stripTagsF : Nat → List Char → List Char
  | 0, l => l
  | _ + 1, [] => []
  | f + 1, c :: rest =>
      if c = '<' then
        match rest.findIdx? (· = '>') with
        | none => c :: rest
        | some 0 => c :: stripTagsF f rest
        | some (k + 1) => stripTagsF f (rest.drop (k + 2))
      else c :: stripTagsF f rest

def stripTags (l : List Char) : List Char := stripTagsF l.length l

/-- `replace(/\s+/g, ' ')`: every maximal whitespace run becomes one space. -/
def collapseWsF : Nat → List Char → List Char
  | 0, l => l
  | _ + 1, [] => []
  | f + 1, c :: rest =>
      if isJsWs c then ' ' :: collapseWsF f (rest.dropWhile isJsWs)
      else c :: collapseWsF f rest

def collapseWs (l : List Char) : List Char := collapseWsF l.length l

def trimLead (l : List Char) : List Char := l.dropWhile isJsWs

def trimTrail (l : List Char) : List Char := (l.reverse.dropWhile isJsWs).reverse

/-- `String.prototype.trim` on the character list. -/
def jsTrimL (l : List Char) : List Char := trimTrail (trimLead l)

/-- `String.prototype.trim`. -/
def jsTrim (s : String) : String := String.mk (jsTrimL s.data)

/-- `sanitizeInput(input, maxLength)` (sanitize.js:25-44): the empty string
for a non-string input, otherwise the seven pattern removals in order,
whitespace normalisation, trim, and truncation to `maxLength` characters.
The JS default `maxLength = 200` is a call-site default; the model takes the
length explicitly. -/
def sanitizeInput (input : JSVal) (maxLength : Nat) : String :=
  match input with
  | .str s =>
      let l1 := runPat try1 s.data
      let l2 := runPat try2 l1
      let l3 := runPat try3 l2
      let l4 := runPatCtx try4 l3
      let l5 := stripFences l4
      let l6 := runPat try6 l5
      let l7 := stripTags l6
      let l8 := collapseWs l7
      let l9 := jsTrimL l8
      String.mk (if l9.length > maxLength then l9.take maxLength else l9)
  | _ => ""

/-- Whether the text contains a fenced-code substring: an opening ``` later
closed by a disjoint ```. -/
def hasFencedPair (s : String) : Bool :=
  match findSubIdx "```".data s.data, lastSubIdx "```".data s.data with
  | some i, some j => i + 3 ≤ j
  | _, _ => false

/-! ## `JSON.parse` (host builtin used by the proxy's level extraction)

A recursive-descent parser for the ECMA-404 grammar.  Numbers are read
exactly into rationals (IEEE-754 rounding is not modelled); `\uXXXX` escapes
become the corresponding code point (astral surrogate pairs are not
recombined — nothing below feeds one).  The fuel argument strictly exceeds
the number of characters still to be consumed, so it never runs out. -/

def jsonWs (c : Char) : Bool := c = ' ' || c = '\t' || c = '\n' || c = '\r'

def hexVal (c : Char) : Option Nat :=
  if '0' ≤ c && c ≤ '9' then some (c.toNat - 48)
  else if 'a' ≤ c && c ≤ 'f' then some (c.toNat - 87)
  else if 'A' ≤ c && c ≤ 'F' then some (c.toNat - 55)
  else none

def escChar (c : Char) : Option Char :=
  if c = '"' then some '"'
  else if c = '\\' then some '\\'
  else if c = '/' then some '/'
  else if c = 'b' then some '\x08'
  else if c = 'f' then some '\x0c'
  else if c = 'n' then some '\n'
  else if c = 'r' then some '\r'
  else if c = 't' then some '\t'
  else none

/-- The characters of a JSON string after its opening quote, and the rest of
the text after the closing quote.  Raw control characters are a syntax
error. -/
def strChars : Nat → List Char → Option (List Char × List Char)
  | 0, _ => none
  | _ + 1, [] => none
  | f + 1, c :: rest =>
      if c = '"' then some ([], rest)
      else if c = '\\' then
        match rest with
        | 'u' :: h1 :: h2 :: h3 :: h4 :: r2 => do
            let n1 ← hexVal h1
            let n2 ← hexVal h2
            let n3 ← hexVal h3
            let n4 ← hexVal h4
            let (cs, r3) ← strChars f r2
            pure (Char.ofNat (((n1 * 16 + n2) * 16 + n3) * 16 + n4) :: cs, r3)
        | e :: r2 => do
            let ec ← escChar e
            let (cs, r3) ← strChars f r2
            pure (ec :: cs, r3)
        | [] => none
      else if c.toNat < 32 then none
      else do
        let (cs, r3) ← strChars f rest
        pure (c :: cs, r3)

def digitsToNat (ds : List Char) : ℕ := ds.foldl (fun a c => a * 10 + (c.toNat - 48)) 0

/-- The optional exponent part, applied to the mantissa. -/
def parseJExp (m : ℚ) (l : List Char) : Option (ℚ × List Char) :=
  match l with
  | 'e' :: r | 'E' :: r =>
      let (negE, r1) := match r with
        | '+' :: t => (false, t)
        | '-' :: t => (true, t)
        | t => (false, t)
      let ds := r1.takeWhile Char.isDigit
      if ds.isEmpty then none
      else
        let e := digitsToNat ds
        some (if negE then m / 10 ^ e else m * 10 ^ e, r1.drop ds.length)
  | _ => some (m, l)

/-- A JSON number: `-?(0|[1-9][0-9]*)(\.[0-9]+)?([eE][+-]?[0-9]+)?`. -/
def parseJNumber (l : List Char) : Option (ℚ × List Char) :=
  let (neg, l1) := match l with
    | '-' :: t => (true, t)
    | t => (false, t)
  let ds := l1.takeWhile Char.isDigit
  if ds.isEmpty then none
  else if ds.length > 1 && ds.headD '0' = '0' then none
  else
    let r1 := l1.drop ds.length
    let ip : ℚ := digitsToNat ds
    let cont : Option (ℚ × List Char) :=
      match r1 with
      | '.' :: r2 =>
          let fs := r2.takeWhile Char.isDigit
          if fs.isEmpty then none
          else parseJExp (ip + (digitsToNat fs : ℚ) / 10 ^ fs.length) (r2.drop fs.length)
      | _ => parseJExp ip r1
    match cont with
    | some (q, r) => some (if neg then -q else q, r)
    | none => none

mutual

/-- A JSON value, at a position with leading whitespace already skipped. -/
def parseJValue : Nat → List Char → Option (JSVal × List Char)
  | 0, _ => none
  | f + 1, l =>
      match l with
      | [] => none
      | '{' :: r => parseJObjBody f (r.dropWhile jsonWs) []
      | '[' :: r => parseJArrBody f (r.dropWhile jsonWs) []
      | '"' :: r => do
          let (cs, rest) ← strChars (r.length + 1) r
          pure (.str (String.mk cs), rest)
      | c :: _ =>
          if ("true".data).isPrefixOf l then some (.bool true, l.drop 4)
          else if ("false".data).isPrefixOf l then some (.bool false, l.drop 5)
          else if ("null".data).isPrefixOf l then some (.null, l.drop 4)
          else if c = '-' || c.isDigit then
            match parseJNumber l with
            | some (q, r) => some (.num (.fin q), r)
            | none => none
          else none

/-- Object members after `{` and whitespace: either an immediate `}` when no
member has been read yet, or `"key" : value` then `,` or `}`.  A duplicate
key overwrites the earlier value in place, as `JSON.parse` does. -/
def parseJObjBody : Nat → List Char → List (String × JSVal) → Option (JSVal × List Char)
  | 0, _, _ => none
  | f + 1, l, acc =>
      match l with
      | '}' :: r => if acc.isEmpty then some (.obj [], r) else none
      | '"' :: r => do
          let (ks, r2) ← strChars (r.length + 1) r
          match (r2.dropWhile jsonWs) with
          | ':' :: r4 => do
              let (v, r5) ← parseJValue f (r4.dropWhile jsonWs)
              let acc' := setAssoc (String.mk ks) v acc
              match (r5.dropWhile jsonWs) with
              | ',' :: r7 => parseJObjBody f (r7.dropWhile jsonWs) acc'
              | '}' :: r7 => some (.obj acc', r7)
              | _ => none
          | _ => none
      | _ => none

/-- Array elements after `[` and whitespace. -/
def parseJArrBody : Nat → List Char → List JSVal → Option (JSVal × List Char)
  | 0, _, _ => none
  | f + 1, l, acc =>
      match l with
      | ']' :: r => if acc.isEmpty then some (.arr [], r) else none
      | _ => do
          let (v, r1) ← parseJValue f l
          let acc' := acc ++ [v]
          match (r1.dropWhile jsonWs) with
          | ',' :: r3 => parseJArrBody f (r3.dropWhile jsonWs) acc'
          | ']' :: r3 => some (.arr acc', r3)
          | _ => none

end

/-- `JSON.parse(s)`: `none` is the SyntaxError. -/
def parseJSON (s : String) : Option JSVal :=
  let l := s.data.dropWhile jsonWs
  match parseJValue (l.length + 1) l with
  | some (v, rest) => if rest.dropWhile jsonWs = [] then some v else none
  | none => none

/-! ## Express proxy server (`src/unnamed/part_000`, the Gemini API proxy) -/

/-- The level-endpoint extraction (server lines 85-93): the first match of
`/```(?:json)?\s*([\s\S]*?)```/`'s capture group if the regex matches,
otherwise the whole text.  The pattern is case-sensitive (no /i flag). -/
def fenceGroupAt (l : List Char) : Option (List Char) :=
  if ("```".data).isPrefixOf l then
    let r := l.drop 3
    let r2 := if ("json".data).isPrefixOf r then r.drop 4 else r
    let r3 := r2.dropWhile isJsWs
    match findSubIdx "```".data r3 with
    | some j => some (r3.take j)
    | none => none
  else none

def findFenceGroup : Nat → List Char → Option (List Char)
  | 0, _ => none
  | _ + 1, [] => none
  | f + 1, c :: rest =>
      match fenceGroupAt (c :: rest) with
      | some g => some g
      | none => findFenceGroup f rest

def extractLevelJson (text : String) : String :=
  match findFenceGroup (text.data.length + 1) text.data with
  | some g => String.mk g
  | none => text

/-- The parsed level payload of POST /api/generate-level for a given raw
backend completion: `JSON.parse(jsonStr.trim())`, where `jsonStr` is the
extracted candidate.  `none` is the parse error (caught and turned into the
fallback error response). -/
def levelResponseOf (rawText : String) : Option JSVal :=
  parseJSON (jsTrim (extractLevelJson rawText))

/-- A raw interior wrapped as a ```json fenced block. -/
def wrapJsonFence (s : String) : String := "```json" ++ s ++ "```"

/-! ### Rate limiter (server lines 36-60) -/

def RATE_LIMIT_WINDOW : Int := 10000

def MAX_REQUESTS : Nat := 5

/-- A per-IP record of the `rateLimiter` map. -/
structure WindowData where
  count : Nat
  firstRequest : Int
deriving DecidableEq

/-- What the middleware does with a request: pass it on to the handler
(`next()`), or answer 429 immediately — in which case the handler never runs
and no backend call is made. -/
inductive RLOutcome where
  | proceed : RLOutcome
  | reject429 : RLOutcome
deriving DecidableEq

/-- The `rateLimit` middleware (server lines 43-60) for caller identity `ip`
at time `now` (`Date.now()`, in milliseconds), over the current table. -/
def rateLimit (ip : String) (now : Int) (tbl : List (String × WindowData)) :
    RLOutcome × List (String × WindowData) :=
  let windowData := (tbl.lookup ip).getD { count := 0, firstRequest := now }
  if now - windowData.firstRequest > RATE_LIMIT_WINDOW then
    (.proceed, setAssoc ip { count := 1, firstRequest := now } tbl)
  else if windowData.count ≥ MAX_REQUESTS then
    (.reject429, tbl)
  else
    (.proceed, setAssoc ip { count := windowData.count + 1,
                             firstRequest := windowData.firstRequest } tbl)

/-- A sequence of requests from one caller at the given times. -/
def runRequests (ip : String) : List Int → List (String × WindowData) →
    List RLOutcome × List (String × WindowData)
  | [], tbl => ([], tbl)
  | t :: ts, tbl =>
      let step := rateLimit ip t tbl
      let rest := runRequests ip ts step.2
      (step.1 :: rest.1, rest.2)

/-! ### NPC dialog cache (server lines 62-143) -/

/-- SameValueZero equality of JS `Map` keys, restricted to the keys that can
actually collide here: primitives compare by value (NaN equals NaN), while an
object or array key compares by reference — each request's body is a freshly
parsed document, so an object key never equals a stored one, and the
object/array case is never-equal. -/
def svz : JSVal → JSVal → Bool
  | .undef, .undef => true
  | .null, .null => true
  | .bool a, .bool b => a = b
  | .num a, .num b => a = b
  | .str a, .str b => a = b
  | _, _ => false

/-- `npcCache.get`/`has`: the value stored under a key. -/
def cacheLookup (cache : List (JSVal × String)) (k : JSVal) : Option String :=
  (cache.find? (fun e => svz e.1 k)).map (·.2)

/-- `npcCache.set`: an existing key keeps its insertion position, a new key
is appended (JS `Map` iteration order is insertion order). -/
def cacheSet : List (JSVal × String) → JSVal → String → List (JSVal × String)
  | [], k, v => [(k, v)]
  | (k', v') :: t, k, v =>
      if svz k' k then (k, v) :: t else (k', v') :: cacheSet t k v

/-- The response of POST /api/npc-dialog. -/
inductive DialogResp where
  | invalidPrompt : DialogResp
  | dialog : String → Bool → DialogResp
deriving DecidableEq

/-- The /api/npc-dialog handler body (server lines 109-143), applied after
the rate-limit middleware admitted the request.  `backendText` stands for the
opaque generative backend's reply `result.response.text()`; the last
component records whether that backend call was made.  The catch branch
(upstream failure, fixed fallback line) is outside the modelled behavior. -/
def npcDialog (prompt cacheKey : JSVal) (backendText : String)
    (cache : List (JSVal × String)) : DialogResp × List (JSVal × String) × Bool :=
  if !prompt.jsTruthy || !prompt.isString then (.invalidPrompt, cache, false)
  else if cacheKey.jsTruthy && (cacheLookup cache cacheKey).isSome then
    (.dialog ((cacheLookup cache cacheKey).getD "") true, cache, false)
  else
    let dialog := jsTrim backendText
    let cache' :=
      if cacheKey.jsTruthy then
        let c1 := cacheSet cache cacheKey dialog
        if c1.length > 100 then c1.tail else c1
      else cache
    (.dialog dialog false, cache', true)

/-- The cache after a sequence of admitted requests
`(prompt, cacheKey, backendText)`. -/
def runDialog : List (JSVal × JSVal × String) → List (JSVal × String) →
    List (JSVal × String)
  | [], cache => cache
  | r :: rs, cache => runDialog rs (npcDialog r.1 r.2.1 r.2.2 cache).2.1

/-! ## Adaptive difficulty engine (`src/game/ai/difficultyEngine.js`) -/

/-- The performance statistics record.  The JS destructuring defaults
(`deaths = 0`, ...) fire only for absent fields; the model supplies every
field. -/
structure PerfStats where
  deaths : JNum
  completionTime : JNum
  coinsCollected : JNum
  totalCoins : JNum
  currentDifficulty : JNum

/-- `calculateNextDifficulty` (difficultyEngine.js:27-54).  The delta
accumulates exactly (it is a small integer; JS float addition is exact on
this range), and the result is `Math.min(10, Math.max(1, currentDifficulty +
delta))` with `LEVEL.MIN_DIFFICULTY = 1`, `LEVEL.MAX_DIFFICULTY = 10`. -/
def calculateNextDifficulty (stats : PerfStats) : JNum :=
  let d1 : ℚ :=
    if JNum.jge stats.deaths (.fin 5) then -2
    else if JNum.jge stats.deaths (.fin 3) then -1
    else if JNum.jeq stats.deaths (.fin 0) then 1
    else 0
  let timePerPlatform :=
    JNum.jdiv stats.completionTime
      (JNum.jmax (.fin 1) (JNum.jmul stats.currentDifficulty (.fin 3)))
  let d2 : ℚ :=
    if JNum.jlt timePerPlatform (.fin 3) then 1
    else if JNum.jgt timePerPlatform (.fin 10) then -1
    else 0
  let coinRat :=
    if JNum.jgt stats.totalCoins (.fin 0) then
      JNum.jdiv stats.coinsCollected stats.totalCoins
    else .fin 0
  let d3 : ℚ :=
    if JNum.jgt coinRat (.fin (9 / 10)) then 1
    else if JNum.jlt coinRat (.fin (3 / 10)) then -1
    else 0
  JNum.jmin (.fin 10)
    (JNum.jmax (.fin 1) (JNum.jadd stats.currentDifficulty (.fin (d1 + d2 + d3))))

/-- Stats with all five fields finite. -/
def finStats (d t c tc cd : ℚ) : PerfStats :=
  { deaths := .fin d, completionTime := .fin t, coinsCollected := .fin c,
    totalCoins := .fin tc, currentDifficulty := .fin cd }

/-- The deaths contribution to the difficulty delta, on finite stats. -/
def deltaDeaths (d : ℚ) : ℚ :=
  if 5 ≤ d then -2 else if 3 ≤ d then -1 else if d = 0 then 1 else 0

/-- The pace contribution to the difficulty delta, on finite stats. -/
def deltaPace (t cd : ℚ) : ℚ :=
  let tpp := t / max 1 (cd * 3)
  if tpp < 3 then 1 else if 10 < tpp then -1 else 0

/-- The coin-ratio contribution to the difficulty delta, on finite stats. -/
def deltaCoins (c tc : ℚ) : ℚ :=
  let r := if 0 < tc then c / tc else 0
  if 9 / 10 < r then 1 else if r < 3 / 10 then -1 else 0

/-! Support definitions for the claim statements. -/

/-- Whether the value is null or undefined. -/
def isNullish : JSVal → Bool
  | .null => true
  | .undef => true
  | _ => false

/-- The elements of an array value (empty for non-arrays). -/
def arrElems : JSVal → List JSVal
  | .arr xs => xs
  | _ => []

/-- A well-behaved entity-list field for the validator: if truthy it is an
array none of whose elements is null or undefined (property access on a
null/undefined element is the validator's only way to throw). -/
def cleanElems (v : JSVal) : Prop :=
  v.jsTruthy = true → v.isArr = true ∧ ∀ e ∈ arrElems v, isNullish e = false

instance cleanElemsDecidable (v : JSVal) : Decidable (cleanElems v) := by
  unfold cleanElems
  infer_instance

/-- An enemy entry with numeric x and y and a whitelisted type whose
behavior is outside the `patrol`/`chase` whitelist — exactly the entries the
enemies filter mutates in place. -/
def enemyBadBehavior (e : JSVal) : Prop :=
  (e.getFD "x").isNumber = true ∧ (e.getFD "y").isNumber = true ∧
  ((e.getFD "type").isStrEq "goomba" = true ∨ (e.getFD "type").isStrEq "koopa" = true) ∧
  (e.getFD "behavior").isStrEq "patrol" = false ∧
  (e.getFD "behavior").isStrEq "chase" = false

instance enemyBadBehaviorDecidable (e : JSVal) : Decidable (enemyBadBehavior e) := by
  unfold enemyBadBehavior
  infer_instance

/-- The post-pattern-7 shape invariant: after every `<` of the text, either a
`>` follows immediately or no `>` occurs at all later.  `/<[^>]+>/g` leaves
exactly such texts, and every later sanitizer stage preserves the shape. -/
def ltShape (l : List Char) : Prop :=
  ∀ a b, l = a ++ '<' :: b → (∃ b', b = '>' :: b') ∨ '>' ∉ b

/-- The text contains no `<script>`...`</script>` pair. -/
def noScriptTag (s : String) : Prop :=
  ¬ ∃ u v w : List Char, s.data = u ++ "<script>".data ++ v ++ "</script>".data ++ w

/-! # Theorems

## C2 — fixed-window admission control -/

theorem rateLimit_start (ip : String) (now : Int) :
    rateLimit ip now [] = (.proceed, [(ip, { count := 1, firstRequest := now })]) := by
  simp [rateLimit, List.lookup, setAssoc, RATE_LIMIT_WINDOW, MAX_REQUESTS]

theorem rateLimit_within (ip : String) (now : Int) (c : Nat) (fr : Int)
    (h : now - fr ≤ RATE_LIMIT_WINDOW) (hc : c < MAX_REQUESTS) :
    rateLimit ip now [(ip, { count := c, firstRequest := fr })] =
      (.proceed, [(ip, { count := c + 1, firstRequest := fr })]) := by
  simp only [rateLimit, List.lookup, beq_self_eq_true, if_true, Option.getD_some]
  rw [if_neg (by omega), if_neg (by omega)]
  simp [setAssoc]

theorem rateLimit_full (ip : String) (now : Int) (c : Nat) (fr : Int)
    (h : now - fr ≤ RATE_LIMIT_WINDOW) (hc : c ≥ MAX_REQUESTS) :
    rateLimit ip now [(ip, { count := c, firstRequest := fr })] =
      (.reject429, [(ip, { count := c, firstRequest := fr })]) := by
  simp only [rateLimit, List.lookup, beq_self_eq_true, if_true, Option.getD_some]
  rw [if_neg (by omega), if_pos hc]

theorem rateLimit_expired (ip : String) (now : Int) (c : Nat) (fr : Int)
    (h : now - fr > RATE_LIMIT_WINDOW) :
    rateLimit ip now [(ip, { count := c, firstRequest := fr })] =
      (.proceed, [(ip, { count := 1, firstRequest := now })]) := by
  simp only [rateLimit, List.lookup, beq_self_eq_true, if_true, Option.getD_some]
  rw [if_pos h]
  simp [setAssoc]

/-- C2: starting from an empty admission table, five requests from one
identity within the 10-second window are all admitted; a sixth within the
same active window is answered 429 (`reject429`: the middleware responds
without calling `next()`, so the handler and hence the backend never run)
and leaves the table unchanged; and a request arriving strictly after the
window has elapsed is admitted and atomically resets the identity's record
to count 1 with a fresh window start. -/
theorem C2_rate_limit_admission (ip : String) (t1 t2 t3 t4 t5 t6 t7 : Int)
    (h2 : t2 - t1 ≤ RATE_LIMIT_WINDOW) (h3 : t3 - t1 ≤ RATE_LIMIT_WINDOW)
    (h4 : t4 - t1 ≤ RATE_LIMIT_WINDOW) (h5 : t5 - t1 ≤ RATE_LIMIT_WINDOW)
    (h6 : t6 - t1 ≤ RATE_LIMIT_WINDOW) (h7 : t7 - t1 > RATE_LIMIT_WINDOW) :
    runRequests ip [t1, t2, t3, t4, t5, t6, t7] [] =
      ([.proceed, .proceed, .proceed, .proceed, .proceed, .reject429, .proceed],
       [(ip, { count := 1, firstRequest := t7 })]) := by
  simp only [runRequests]
  rw [rateLimit_start ip t1]
  dsimp only
  rw [rateLimit_within ip t2 1 t1 h2 (by decide)]
  dsimp only
  rw [rateLimit_within ip t3 2 t1 h3 (by decide)]
  dsimp only
  rw [rateLimit_within ip t4 3 t1 h4 (by decide)]
  dsimp only
  rw [rateLimit_within ip t5 4 t1 h5 (by decide)]
  dsimp only
  rw [rateLimit_full ip t6 5 t1 h6 (by decide)]
  dsimp only
  rw [rateLimit_expired ip t7 5 t1 h7]

/-- C2 witness at concrete times 0,1,2,3,4,5 and 10001. -/
theorem C2_rate_limit_admission_witness :
    runRequests "caller" [0, 1, 2, 3, 4, 5, 10001] [] =
      ([.proceed, .proceed, .proceed, .proceed, .proceed, .reject429, .proceed],
       [("caller", { count := 1, firstRequest := 10001 })]) :=
  C2_rate_limit_admission "caller" 0 1 2 3 4 5 10001 (by decide) (by decide)
    (by decide) (by decide) (by decide) (by decide)

/-! ## C4 — difficulty controller: range and per-factor monotonicity -/

theorem jlt_fin (a b : ℚ) : JNum.jlt (.fin a) (.fin b) = decide (a < b) := rfl

theorem jgt_fin (a b : ℚ) : JNum.jgt (.fin a) (.fin b) = decide (b < a) := rfl

theorem jle_fin (a b : ℚ) : JNum.jle (.fin a) (.fin b) = decide (a ≤ b) := rfl

theorem jge_fin (a b : ℚ) : JNum.jge (.fin a) (.fin b) = decide (b ≤ a) := rfl

theorem jeq_fin (a b : ℚ) : JNum.jeq (.fin a) (.fin b) = decide (a = b) := rfl

theorem jadd_fin (a b : ℚ) : JNum.jadd (.fin a) (.fin b) = .fin (a + b) := rfl

theorem jmul_fin (a b : ℚ) : JNum.jmul (.fin a) (.fin b) = .fin (a * b) := rfl

theorem jmax_fin_fin (a b : ℚ) : JNum.jmax (.fin a) (.fin b) = .fin (max a b) := by
  rcases le_or_lt b a with h | h
  · simp [JNum.jmax, JNum.jlt, not_lt.mpr h, max_eq_left h]
  · simp [JNum.jmax, JNum.jlt, h, max_eq_right h.le]

theorem jmin_fin_fin (a b : ℚ) : JNum.jmin (.fin a) (.fin b) = .fin (min a b) := by
  rcases le_or_lt a b with h | h
  · simp [JNum.jmin, JNum.jlt, not_lt.mpr h, min_eq_left h]
  · simp [JNum.jmin, JNum.jlt, h, min_eq_right h.le]

theorem jdiv_fin_pos (a b : ℚ) (h : 0 < b) : JNum.jdiv (.fin a) (.fin b) = .fin (a / b) := by
  simp [JNum.jdiv, ne_of_gt h]

/-- On all-finite stats the difficulty computation is the exact rational
clamp of `currentDifficulty + delta`. -/
theorem calc_fin_eq (d t c tc cd : ℚ) :
    calculateNextDifficulty (finStats d t c tc cd) =
      .fin (min 10 (max 1 (cd + (deltaDeaths d + deltaPace t cd + deltaCoins c tc)))) := by
  have hm : (0 : ℚ) < max 1 (cd * 3) := lt_max_of_lt_left one_pos
  unfold calculateNextDifficulty finStats deltaDeaths deltaPace deltaCoins
  simp only [jge_fin, jeq_fin, jmul_fin, jmax_fin_fin, jdiv_fin_pos t _ hm,
    jlt_fin, jgt_fin, decide_eq_true_eq]
  by_cases htc : 0 < tc
  · simp only [if_pos htc, jdiv_fin_pos c tc htc, jlt_fin, jgt_fin, jadd_fin,
      jmax_fin_fin, jmin_fin_fin, decide_eq_true_eq]
  · simp only [if_neg htc, jlt_fin, jgt_fin, jadd_fin,
      jmax_fin_fin, jmin_fin_fin, decide_eq_true_eq]

theorem clamp_mem (x : ℚ) : 1 ≤ min 10 (max 1 x) ∧ min 10 (max 1 x) ≤ 10 :=
  ⟨le_min (by norm_num) (le_max_left 1 x), min_le_left 10 _⟩

/-- Clamping `n + delta` for a non-NaN `n` always yields a finite value in
[1, 10] (`+∞` clamps to 10, `-∞` to 1). -/
theorem clamp_cd_mem (n : JNum) (x : ℚ) (h : n ≠ .nan) :
    ∃ q : ℚ, JNum.jmin (.fin 10) (JNum.jmax (.fin 1) (JNum.jadd n (.fin x))) = .fin q ∧
      1 ≤ q ∧ q ≤ 10 := by
  rcases n with _ | _ | _ | cq
  · exact absurd rfl h
  · exact ⟨10, rfl, by norm_num, by norm_num⟩
  · exact ⟨1, rfl, by norm_num, by norm_num⟩
  · refine ⟨min 10 (max 1 (cq + x)), ?_, (clamp_mem _).1, (clamp_mem _).2⟩
    show JNum.jmin (.fin 10) (JNum.jmax (.fin 1) (.fin (cq + x))) = _
    rw [jmax_fin_fin, jmin_fin_fin]

theorem deltaDeaths_anti (d1 d2 : ℚ) (h0 : 0 ≤ d1) (h : d1 ≤ d2) :
    deltaDeaths d2 ≤ deltaDeaths d1 := by
  unfold deltaDeaths
  split_ifs <;> try linarith
  all_goals
    exfalso
    rcases lt_or_eq_of_le h0 with hx | hx
    · linarith
    · exact absurd hx.symm (by assumption)

theorem deltaPace_anti (t1 t2 cd : ℚ) (h : t1 ≤ t2) :
    deltaPace t2 cd ≤ deltaPace t1 cd := by
  have hm : (0 : ℚ) < max 1 (cd * 3) := lt_max_of_lt_left one_pos
  have hdiv : t1 / max 1 (cd * 3) ≤ t2 / max 1 (cd * 3) :=
    div_le_div_of_nonneg_right h hm.le
  unfold deltaPace
  dsimp only
  split_ifs <;> linarith

theorem deltaCoins_mono (c1 c2 tc : ℚ) (htc : 0 < tc) (h : c1 ≤ c2) :
    deltaCoins c1 tc ≤ deltaCoins c2 tc := by
  have hdiv : c1 / tc ≤ c2 / tc := div_le_div_of_nonneg_right h htc.le
  unfold deltaCoins
  dsimp only
  simp only [if_pos htc]
  split_ifs <;> linarith

theorem clamp_mono (cd x y : ℚ) (h : x ≤ y) :
    min 10 (max 1 (cd + x)) ≤ min 10 (max 1 (cd + y)) :=
  min_le_min le_rfl (max_le_max le_rfl (by linarith))

/-- C4 (amended): `calculateNextDifficulty` returns a finite value in [1,10]
for every stats record whose `currentDifficulty` is not NaN (with NaN it
returns NaN — see the counterexample); and on finite stats it is
non-increasing in `deaths` over the non-negative range (at `deaths = -1` it
exceeds neither neighbour but `deaths = 0` yields more — see the
counterexample), non-increasing in `completionTime`, and non-decreasing in
`coinsCollected` for fixed positive `totalCoins`. -/
theorem C4_difficulty_range_and_monotonicity :
    (∀ s : PerfStats, s.currentDifficulty ≠ .nan →
        ∃ q : ℚ, calculateNextDifficulty s = .fin q ∧ 1 ≤ q ∧ q ≤ 10) ∧
    (∀ d1 d2 t c tc cd : ℚ, 0 ≤ d1 → d1 ≤ d2 →
        JNum.jle (calculateNextDifficulty (finStats d2 t c tc cd))
          (calculateNextDifficulty (finStats d1 t c tc cd)) = true) ∧
    (∀ d t1 t2 c tc cd : ℚ, t1 ≤ t2 →
        JNum.jle (calculateNextDifficulty (finStats d t2 c tc cd))
          (calculateNextDifficulty (finStats d t1 c tc cd)) = true) ∧
    (∀ d t c1 c2 tc cd : ℚ, 0 < tc → c1 ≤ c2 →
        JNum.jle (calculateNextDifficulty (finStats d t c1 tc cd))
          (calculateNextDifficulty (finStats d t c2 tc cd)) = true) := by
  refine ⟨?_, ?_, ?_, ?_⟩
  · intro s hcd
    unfold calculateNextDifficulty
    exact clamp_cd_mem s.currentDifficulty _ hcd
  · intro d1 d2 t c tc cd h0 h
    rw [calc_fin_eq, calc_fin_eq, jle_fin, decide_eq_true_eq]
    exact clamp_mono cd _ _ (by
      have := deltaDeaths_anti d1 d2 h0 h
      linarith)
  · intro d t1 t2 c tc cd h
    rw [calc_fin_eq, calc_fin_eq, jle_fin, decide_eq_true_eq]
    exact clamp_mono cd _ _ (by
      have := deltaPace_anti t1 t2 cd h
      linarith)
  · intro d t c1 c2 tc cd htc h
    rw [calc_fin_eq, calc_fin_eq, jle_fin, decide_eq_true_eq]
    exact clamp_mono cd _ _ (by
      have := deltaCoins_mono c1 c2 tc htc h
      linarith)

theorem fin_ne_nan (q : ℚ) : (JNum.fin q = JNum.nan) = False := by simp

theorem maxq_one_twelve : max (1 : ℚ) (4 * 3) = 12 := by
  rw [max_eq_right] <;> norm_num

/-- C4 counterexample to the claim as stated: at deaths = -1 (the claim
covers out-of-range stats) the result is 4 while at deaths = 0 it is 5 with
the other fields fixed, so the result is not non-increasing in deaths; and
with a NaN `currentDifficulty` the result is NaN, outside [1,10]. -/
theorem C4_difficulty_counterexample :
    calculateNextDifficulty (finStats (-1) 60 5 10 4) = .fin 4 ∧
    calculateNextDifficulty (finStats 0 60 5 10 4) = .fin 5 ∧
    calculateNextDifficulty
      (PerfStats.mk (.fin 0) (.fin 60) (.fin 5) (.fin 10) .nan) = .nan := by
  refine ⟨?_, ?_, ?_⟩
  · rw [calc_fin_eq]
    norm_num [deltaDeaths, deltaPace, deltaCoins, maxq_one_twelve]
  · rw [calc_fin_eq]
    norm_num [deltaDeaths, deltaPace, deltaCoins, maxq_one_twelve]
  · norm_num [calculateNextDifficulty, JNum.jmul, JNum.jmax, JNum.jmin, JNum.jdiv,
      JNum.jadd, JNum.jlt, JNum.jgt, JNum.jge, JNum.jle, JNum.jeq, fin_ne_nan]

/-- C4 witness: the amended theorem applied at concrete stats. -/
theorem C4_difficulty_witness :
    (∃ q : ℚ, calculateNextDifficulty (finStats 1 30 9 10 5) = .fin q ∧ 1 ≤ q ∧ q ≤ 10) ∧
    JNum.jle (calculateNextDifficulty (finStats 4 60 5 10 4))
      (calculateNextDifficulty (finStats 0 60 5 10 4)) = true :=
  ⟨C4_difficulty_range_and_monotonicity.1 (finStats 1 30 9 10 5) (by decide),
   C4_difficulty_range_and_monotonicity.2.1 0 4 60 5 10 4 (by norm_num) (by norm_num)⟩

/-! ## C6 — NPC dialog cache: capacity bound, FIFO eviction, hit behavior -/

theorem cacheSet_length_le (cache : List (JSVal × String)) (k : JSVal) (v : String) :
    (cacheSet cache k v).length ≤ cache.length + 1 := by
  induction cache with
  | nil => simp [cacheSet]
  | cons e t ih =>
      unfold cacheSet
      split
      · simp
      · simpa using Nat.succ_le_succ ih

theorem cacheSet_absent (cache : List (JSVal × String)) (k : JSVal) (v : String)
    (h : cacheLookup cache k = none) : cacheSet cache k v = cache ++ [(k, v)] := by
  induction cache with
  | nil => rfl
  | cons e t ih =>
      rcases he : svz e.1 k with _ | _
      · have h' : cacheLookup t k = none := by
          unfold cacheLookup at h ⊢
          rw [List.find?_cons] at h
          simp only [he] at h
          exact h
        simp only [cacheSet, he, Bool.false_eq_true, if_false]
        rw [ih h']
        rfl
      · exfalso
        unfold cacheLookup at h
        rw [List.find?_cons] at h
        simp [he] at h

theorem tail_append_of_ne_nil {α : Type} (l1 l2 : List α) (h : l1 ≠ []) :
    (l1 ++ l2).tail = l1.tail ++ l2 := by
  cases l1 with
  | nil => exact absurd rfl h
  | cons a t => simp

theorem npcDialog_len_le (p k : JSVal) (b : String) (cache : List (JSVal × String))
    (hc : cache.length ≤ 100) : (npcDialog p k b cache).2.1.length ≤ 100 := by
  unfold npcDialog
  split
  · exact hc
  · split
    · exact hc
    · dsimp only
      split
      · split
        · rename_i hlen
          have := cacheSet_length_le cache k (jsTrim b)
          simp only [List.length_tail]
          omega
        · rename_i hlen
          omega
      · exact hc

/-- C6: (1) starting from an empty cache, after any sequence of requests the
cache holds at most 100 entries; (2) a request with a valid prompt and a
truthy cache key absent from a 100-entry cache appends the new entry and
evicts exactly the first-inserted (oldest) entry; (3) a request with a valid
prompt whose truthy cache key is present returns the cached dialog with
`cached = true`, leaves the cache unchanged, and makes no backend call. -/
theorem C6_npc_cache_bound_fifo_hit :
    (∀ reqs : List (JSVal × JSVal × String), (runDialog reqs []).length ≤ 100) ∧
    (∀ (p k : JSVal) (b : String) (cache : List (JSVal × String)),
        p.jsTruthy = true → p.isString = true → k.jsTruthy = true →
        cacheLookup cache k = none → cache.length = 100 →
        npcDialog p k b cache =
          (.dialog (jsTrim b) false, cache.tail ++ [(k, jsTrim b)], true)) ∧
    (∀ (p k : JSVal) (b v : String) (cache : List (JSVal × String)),
        p.jsTruthy = true → p.isString = true → k.jsTruthy = true →
        cacheLookup cache k = some v →
        npcDialog p k b cache = (.dialog v true, cache, false)) := by
  refine ⟨?_, ?_, ?_⟩
  · have inv : ∀ (reqs : List (JSVal × JSVal × String)) (cache : List (JSVal × String)),
        cache.length ≤ 100 → (runDialog reqs cache).length ≤ 100 := by
      intro reqs
      induction reqs with
      | nil => intro cache hc; exact hc
      | cons r rs ih =>
          intro cache hc
          exact ih _ (npcDialog_len_le r.1 r.2.1 r.2.2 cache hc)
    intro reqs
    exact inv reqs [] (by simp)
  · intro p k b cache hp hps hk habs hlen
    unfold npcDialog
    rw [if_neg (by simp [hp, hps]), if_neg (by simp [habs])]
    dsimp only
    rw [if_pos hk, cacheSet_absent cache k (jsTrim b) habs]
    rw [if_pos (by simp [hlen])]
    rw [tail_append_of_ne_nil cache [(k, jsTrim b)]
      (by intro hnil; rw [hnil] at hlen; simp at hlen)]
  · intro p k b v cache hp hps hk hsome
    unfold npcDialog
    rw [if_neg (by simp [hp, hps]), if_pos (by simp [hk, hsome]), hsome]
    rfl

/-- C6 witness: the three parts of the theorem at concrete requests — one
request from empty; an eviction on a full 100-entry cache; and a cache hit. -/
theorem C6_npc_cache_witness :
    (runDialog [(.str "p", .str "k", "d")] []).length ≤ 100 ∧
    npcDialog (.str "p") (.str "b") "hi" (List.replicate 100 (.str "a", "v")) =
      (.dialog (jsTrim "hi") false,
       (List.replicate 100 ((.str "a" : JSVal), "v")).tail ++ [(.str "b", jsTrim "hi")],
       true) ∧
    npcDialog (.str "p") (.str "k") "x" [(.str "k", "vv")] =
      (.dialog "vv" true, [(.str "k", "vv")], false) :=
  ⟨C6_npc_cache_bound_fifo_hit.1 [(.str "p", .str "k", "d")],
   C6_npc_cache_bound_fifo_hit.2.1 (.str "p") (.str "b") "hi" _
     (by decide) (by decide) (by decide) (by decide) (by decide),
   C6_npc_cache_bound_fifo_hit.2.2 (.str "p") (.str "k") "x" "vv" _
     (by decide) (by decide) (by decide) (by decide)⟩

/-! ## Shared machinery for the validator claims (C1, C3, C8, C9, C10) -/

theorem except_bind_ok {α β : Type} (a : α) (f : α → Except Unit β) :
    (Except.ok a >>= f) = f a := rfl

theorem except_bind_error {α β : Type} (f : α → Except Unit β) :
    ((Except.error () : Except Unit α) >>= f) = .error () := rfl

theorem getF_ok (v : JSVal) (k : String) (h : isNullish v = false) :
    v.getF k = .ok (v.getFD k) := by
  cases v <;> simp_all [isNullish, JSVal.getF]

theorem obj_of_isNumber_getFD (v : JSVal) (k : String)
    (h : (v.getFD k).isNumber = true) : ∃ fs, v = .obj fs := by
  cases v <;> simp_all [JSVal.getFD, JSVal.isNumber]

theorem lookup_setAssoc_self {α : Type} (k : String) (v : α) :
    ∀ fs : List (String × α), (setAssoc k v fs).lookup k = some v := by
  intro fs
  induction fs with
  | nil => simp [setAssoc, List.lookup]
  | cons e t ih =>
      unfold setAssoc
      split
      · simp [List.lookup]
      · rename_i hne
        have hb : (k == e.1) = false := by
          simp only [beq_eq_false_iff_ne, ne_eq]
          exact fun hkk => hne hkk.symm
        simp only [List.lookup, hb]
        exact ih

theorem getFD_objSet_self (fs : List (String × JSVal)) (k : String) (v : JSVal) :
    ((JSVal.obj fs).objSet k v).getFD k = v := by
  simp [JSVal.objSet, JSVal.getFD, lookup_setAssoc_self]

theorem filterE_ok_of_all {f : JSVal → Except Unit Bool} :
    ∀ l : List JSVal, (∀ a ∈ l, ∃ b, f a = .ok b) → ∃ r, filterE f l = .ok r := by
  intro l
  induction l with
  | nil => exact fun _ => ⟨[], rfl⟩
  | cons a as ih =>
      intro h
      obtain ⟨b, hb⟩ := h a (List.mem_cons_self a as)
      obtain ⟨r, hr⟩ := ih (fun x hx => h x (List.mem_cons_of_mem a hx))
      exact ⟨if b then a :: r else r, by rw [filterE, hb, except_bind_ok, hr]; rfl⟩

theorem filterE_mem {f : JSVal → Except Unit Bool} :
    ∀ {l r : List JSVal}, filterE f l = .ok r → ∀ a ∈ r, a ∈ l ∧ f a = .ok true := by
  intro l
  induction l with
  | nil =>
      intro r h
      simp only [filterE] at h
      cases h
      simp
  | cons x as ih =>
      intro r h a ha
      rw [filterE] at h
      cases hb : f x with
      | error e => rw [hb] at h; cases h
      | ok b =>
          rw [hb, except_bind_ok] at h
          cases hr : filterE f as with
          | error e => rw [hr] at h; cases h
          | ok rest =>
              rw [hr] at h
              injection h with h2
              cases b with
              | true =>
                  rw [if_pos rfl] at h2
                  rw [← h2] at ha
                  rcases List.mem_cons.mp ha with rfl | hmem
                  · exact ⟨by simp, hb⟩
                  · obtain ⟨hm, hf⟩ := ih hr a hmem
                    exact ⟨List.mem_cons_of_mem x hm, hf⟩
              | false =>
                  rw [if_neg (by simp)] at h2
                  rw [← h2] at ha
                  obtain ⟨hm, hf⟩ := ih hr a ha
                  exact ⟨List.mem_cons_of_mem x hm, hf⟩

theorem filterE_length_le {f : JSVal → Except Unit Bool} :
    ∀ {l r : List JSVal}, filterE f l = .ok r → r.length ≤ l.length := by
  intro l
  induction l with
  | nil => intro r h; cases h; simp
  | cons x as ih =>
      intro r h
      rw [filterE] at h
      cases hb : f x with
      | error e => rw [hb] at h; cases h
      | ok b =>
          rw [hb, except_bind_ok] at h
          cases hr : filterE f as with
          | error e => rw [hr] at h; cases h
          | ok rest =>
              rw [hr] at h
              injection h with h2
              cases b with
              | true =>
                  rw [if_pos rfl] at h2
                  rw [← h2]
                  simpa using ih hr
              | false =>
                  rw [if_neg (by simp)] at h2
                  rw [← h2]
                  exact (ih hr).trans (Nat.le_succ _)

theorem filterE_all_true {f : JSVal → Except Unit Bool} :
    ∀ {l : List JSVal}, (∀ a ∈ l, f a = .ok true) → filterE f l = .ok l := by
  intro l
  induction l with
  | nil => exact fun _ => rfl
  | cons x as ih =>
      intro h
      rw [filterE, h x (List.mem_cons_self x as), except_bind_ok,
        ih (fun a ha => h a (List.mem_cons_of_mem x ha))]
      rfl

theorem mapE_ok_of_all {α : Type} {f : JSVal → Except Unit α} :
    ∀ l : List JSVal, (∀ a ∈ l, ∃ b, f a = .ok b) → ∃ r, mapE f l = .ok r := by
  intro l
  induction l with
  | nil => exact fun _ => ⟨[], rfl⟩
  | cons a as ih =>
      intro h
      obtain ⟨b, hb⟩ := h a (List.mem_cons_self a as)
      obtain ⟨r, hr⟩ := ih (fun x hx => h x (List.mem_cons_of_mem a hx))
      exact ⟨b :: r, by rw [mapE, hb, except_bind_ok, hr]; rfl⟩

theorem mapE_getElem {α : Type} {f : JSVal → Except Unit α} :
    ∀ {l : List JSVal} {r : List α}, mapE f l = .ok r →
      ∀ (i : ℕ) (a : JSVal), l[i]? = some a → ∃ b, f a = .ok b ∧ r[i]? = some b := by
  intro l
  induction l with
  | nil => intro r h i a ha; simp at ha
  | cons x as ih =>
      intro r h i a ha
      rw [mapE] at h
      cases hb : f x with
      | error e => rw [hb] at h; cases h
      | ok b =>
          rw [hb, except_bind_ok] at h
          cases hr : mapE f as with
          | error e => rw [hr] at h; cases h
          | ok rest =>
              rw [hr] at h
              injection h with h2
              rw [← h2]
              cases i with
              | zero =>
                  simp only [List.getElem?_cons_zero, Option.some.injEq] at ha
                  exact ⟨b, by rw [← ha, hb], by simp⟩
              | succ n =>
                  simp only [List.getElem?_cons_succ] at ha ⊢
                  exact ih hr n a ha

theorem asArray_orEmpty_ok (v : JSVal) (h : cleanElems v) :
    ∃ xs, asArray (orEmptyArr v) = .ok xs ∧ ∀ e ∈ xs, isNullish e = false := by
  by_cases ht : v.jsTruthy = true
  · obtain ⟨harr, helems⟩ := h ht
    cases v <;> simp only [JSVal.isArr, Bool.false_eq_true] at harr
    rename_i xs
    refine ⟨xs, ?_, fun e he => helems e (by simpa [arrElems] using he)⟩
    unfold orEmptyArr
    rw [if_pos ht]
    rfl
  · refine ⟨[], ?_, by simp⟩
    unfold orEmptyArr
    rw [if_neg ht]
    rfl

/-- Inversion of a successful `validateLevelData` call: either the top-level
type check rejected, or all five monadic extractions succeeded and the result
is their pure assembly. -/
theorem validate_ok_elim (raw : JSVal) (res : VResult × JSVal)
    (h : validateLevelData raw = .ok res) :
    ((raw.jsTruthy && raw.typeofIsObject) = false ∧
      res = ({ valid := false, errors := [.notAnObject], data := none }, raw)) ∨
    ((raw.jsTruthy && raw.typeofIsObject) = true ∧
      ∃ platList validPlats enemyList steps coinList coinsKept,
        asArray (orEmptyArr (raw.getFD "platforms")) = .ok platList ∧
        filterE platformOk platList = .ok validPlats ∧
        asArray (orEmptyArr (raw.getFD "enemies")) = .ok enemyList ∧
        mapE enemyStep enemyList = .ok steps ∧
        asArray (orEmptyArr (raw.getFD "coins")) = .ok coinList ∧
        filterE coinOk coinList = .ok coinsKept ∧
        res = assembleResult raw validPlats steps coinsKept) := by
  unfold validateLevelData at h
  by_cases hcond : (!raw.jsTruthy || !raw.typeofIsObject) = true
  · left
    rw [if_pos hcond] at h
    injection h with h7
    refine ⟨?_, h7.symm⟩
    simp only [Bool.or_eq_true, Bool.not_eq_true'] at hcond
    rcases hcond with hx | hx <;> simp [hx]
  · right
    have hob : raw.jsTruthy = true ∧ raw.typeofIsObject = true := by
      simpa using hcond
    refine ⟨by simp [hob.1, hob.2], ?_⟩
    rw [if_neg hcond] at h
    cases h1 : asArray (orEmptyArr (raw.getFD "platforms")) with
    | error e => rw [h1, except_bind_error] at h; cases h
    | ok platList =>
        rw [h1, except_bind_ok] at h
        cases h2 : filterE platformOk platList with
        | error e => rw [h2, except_bind_error] at h; cases h
        | ok validPlats =>
            rw [h2, except_bind_ok] at h
            cases h3 : asArray (orEmptyArr (raw.getFD "enemies")) with
            | error e => rw [h3, except_bind_error] at h; cases h
            | ok enemyList =>
                rw [h3, except_bind_ok] at h
                cases h4 : mapE enemyStep enemyList with
                | error e => rw [h4, except_bind_error] at h; cases h
                | ok steps =>
                    rw [h4, except_bind_ok] at h
                    cases h5 : asArray (orEmptyArr (raw.getFD "coins")) with
                    | error e => rw [h5, except_bind_error] at h; cases h
                    | ok coinList =>
                        rw [h5, except_bind_ok] at h
                        cases h6 : filterE coinOk coinList with
                        | error e => rw [h6, except_bind_error] at h; cases h
                        | ok coinsKept =>
                            rw [h6, except_bind_ok] at h
                            injection h with h7
                            exact ⟨platList, validPlats, enemyList, steps, coinList,
                              coinsKept, rfl, h2, rfl, h4, rfl, h6, h7.symm⟩

theorem platformOk_ok (p : JSVal) (hp : isNullish p = false) :
    ∃ b, platformOk p = .ok b := by
  unfold platformOk
  rw [getF_ok p "x" hp, except_bind_ok, getF_ok p "y" hp, except_bind_ok]
  split
  · exact ⟨false, rfl⟩
  · rw [getF_ok p "width" hp, except_bind_ok]
    split
    · exact ⟨false, rfl⟩
    · split
      · exact ⟨false, rfl⟩
      · exact ⟨true, rfl⟩

theorem enemyStep_ok (e : JSVal) (hp : isNullish e = false) :
    ∃ r, enemyStep e = .ok r := by
  unfold enemyStep
  rw [getF_ok e "x" hp, except_bind_ok, getF_ok e "y" hp, except_bind_ok]
  split
  · exact ⟨(false, e), rfl⟩
  · rename_i hxy
    rw [getF_ok e "type" hp, except_bind_ok]
    split
    · exact ⟨(false, e), rfl⟩
    · rw [getF_ok e "behavior" hp, except_bind_ok]
      split
      · exact ⟨(true, e), rfl⟩
      · obtain ⟨fs, rfl⟩ := obj_of_isNumber_getFD e "x" (by
          rcases hnum : (e.getFD "x").isNumber with _ | _
          · simp [hnum] at hxy
          · rfl)
        exact ⟨(true, (JSVal.obj fs).objSet "behavior" (.str "patrol")), rfl⟩

theorem coinOk_ok (c : JSVal) (hp : isNullish c = false) :
    ∃ b, coinOk c = .ok b := by
  unfold coinOk
  rw [getF_ok c "x" hp, except_bind_ok, getF_ok c "y" hp, except_bind_ok]
  exact ⟨_, rfl⟩

/-- C1 (amended): `validateLevelData` returns a `ValidationResult` without
throwing for every input — including null and non-objects — provided that
each of the `platforms`/`enemies`/`coins` fields, when truthy, is an array
none of whose elements is null or undefined.  (On nullish array elements, or
a truthy non-array entity field, the JS code throws a TypeError — see the
counterexample — so the claim's full generality fails.) -/
theorem C1_validate_never_throws (raw : JSVal)
    (hp : cleanElems (raw.getFD "platforms"))
    (he : cleanElems (raw.getFD "enemies"))
    (hc : cleanElems (raw.getFD "coins")) :
    ∃ out, validateLevelData raw = .ok out := by
  unfold validateLevelData
  split
  · exact ⟨_, rfl⟩
  · obtain ⟨pl, hpl, hplmem⟩ := asArray_orEmpty_ok _ hp
    obtain ⟨vp, hvp⟩ := filterE_ok_of_all pl (fun a ha => platformOk_ok a (hplmem a ha))
    obtain ⟨el, hel, helmem⟩ := asArray_orEmpty_ok _ he
    obtain ⟨steps, hsteps⟩ := mapE_ok_of_all el (fun a ha => enemyStep_ok a (helmem a ha))
    obtain ⟨cl, hcl, hclmem⟩ := asArray_orEmpty_ok _ hc
    obtain ⟨ck, hck⟩ := filterE_ok_of_all cl (fun a ha => coinOk_ok a (hclmem a ha))
    rw [hpl, except_bind_ok, hvp, except_bind_ok, hel, except_bind_ok,
      hsteps, except_bind_ok, hcl, except_bind_ok, hck, except_bind_ok]
    exact ⟨_, rfl⟩

/-- C1 counterexample: on `{platforms: [null]}` — an object whose platforms
array contains null, squarely within the claim's quantifier — the validator
throws a TypeError (reading `x` of null) instead of returning a
ValidationResult. -/
theorem C1_validate_throws_on_null_platform :
    validateLevelData (.obj [("platforms", .arr [.null])]) = .error () := rfl

/-- C1 witness: the amended theorem at a concrete input whose entity arrays
contain only non-nullish elements. -/
theorem C1_validate_never_throws_witness :
    ∃ out, validateLevelData
      (.obj [("platforms", .arr [.num (.fin 1), .str "p"]), ("enemies", .num (.fin 0))]) =
      .ok out :=
  C1_validate_never_throws _ (by decide) (by decide) (by decide)

/-! ## C10 — the enemies filter mutates the caller's argument -/

theorem obj_of_getFD_arr (v : JSVal) (k : String) (xs : List JSVal)
    (h : v.getFD k = .arr xs) : ∃ fs, v = .obj fs := by
  cases v <;> simp_all [JSVal.getFD]

theorem isNullish_obj (fs : List (String × JSVal)) : isNullish (.obj fs) = false := rfl

theorem enemyStep_bad (e : JSVal) (ks : Bool) (e' : JSVal)
    (hq : enemyBadBehavior e) (h : enemyStep e = .ok (ks, e')) :
    ks = true ∧ e' = e.objSet "behavior" (.str "patrol") := by
  obtain ⟨hx, hy, ht, hb1, hb2⟩ := hq
  obtain ⟨fs, rfl⟩ := obj_of_isNumber_getFD e "x" hx
  unfold enemyStep at h
  rw [getF_ok _ "x" (isNullish_obj fs), except_bind_ok,
    getF_ok _ "y" (isNullish_obj fs), except_bind_ok,
    if_neg (by simp [hx, hy]),
    getF_ok _ "type" (isNullish_obj fs), except_bind_ok,
    if_neg (by rcases ht with ht | ht <;> simp [ht]),
    getF_ok _ "behavior" (isNullish_obj fs), except_bind_ok,
    if_neg (by simp [hb1, hb2])] at h
  rw [show (JSVal.obj fs).objSetE "behavior" (.str "patrol") =
    .ok ((JSVal.obj fs).objSet "behavior" (.str "patrol")) from rfl,
    except_bind_ok] at h
  injection h with h2
  injection h2 with h3 h4
  exact ⟨h3.symm, h4.symm⟩

theorem assembleResult_snd (raw : JSVal) (vp : List JSVal)
    (steps : List (Bool × JSVal)) (ck : List JSVal) :
    (assembleResult raw vp steps ck).2 = rawOutOf raw steps := by
  unfold assembleResult
  dsimp only
  split <;> rfl

/-- C10: whenever `validateLevelData` completes (no exception), every entry
of the caller-supplied `enemies` array that has numeric x and y and a
whitelisted type but a behavior outside patrol/chase has been overwritten in
place: in the caller-visible post-call argument, that entry's `behavior` is
`"patrol"`.  No validity hypothesis is made, so the mutation also covers
calls that return `valid: false` (the witness exercises exactly that case). -/
theorem C10_enemies_mutated_in_place (raw : JSVal) (res : VResult) (raw' : JSVal)
    (h : validateLevelData raw = .ok (res, raw'))
    (es : List JSVal) (hes : raw.getFD "enemies" = .arr es)
    (i : ℕ) (e : JSVal) (hi : es[i]? = some e) (hq : enemyBadBehavior e) :
    ∃ es', raw'.getFD "enemies" = .arr es' ∧
      es'[i]? = some (e.objSet "behavior" (.str "patrol")) := by
  obtain ⟨fs, hraw⟩ : ∃ fs, raw = .obj fs := obj_of_getFD_arr raw "enemies" es hes
  rcases validate_ok_elim raw (res, raw') h with ⟨hcond, _⟩ | ⟨_, pl, vp, el, steps, cl, ck,
    _, _, h3, h4, _, _, hres⟩
  · rw [hraw] at hcond
    simp [JSVal.jsTruthy, JSVal.typeofIsObject] at hcond
  · have hel : el = es := by
      rw [hes] at h3
      unfold orEmptyArr at h3
      rw [if_pos (by rfl)] at h3
      injection h3 with h3'
      exact h3'.symm
    subst hel
    have hraw' : raw' = rawOutOf raw steps := by
      have := congrArg Prod.snd hres
      rw [assembleResult_snd] at this
      exact this
    obtain ⟨b, hb, hbi⟩ := mapE_getElem h4 i e hi
    obtain ⟨ks, e2⟩ := b
    obtain ⟨-, he2⟩ := enemyStep_bad e ks e2 hq hb
    refine ⟨steps.map (·.2), ?_, ?_⟩
    · rw [hraw', rawOutOf, hes, hraw, getFD_objSet_self]
    · rw [List.getElem?_map, hbi]
      simp [he2]

/-- C10 witness: a call whose result is `valid: false` (no platforms) still
rewrites the bad-behavior enemy's `behavior` to `"patrol"` in the argument. -/
theorem C10_enemies_mutated_witness :
    ∃ es', (JSVal.obj [("enemies", .arr [JSVal.obj
        [("x", .num (.fin 1)), ("y", .num (.fin 1)),
         ("type", .str "goomba"), ("behavior", .str "patrol")]])]).getFD "enemies" =
      .arr es' ∧
      es'[0]? = some ((JSVal.obj
        [("x", .num (.fin 1)), ("y", .num (.fin 1)),
         ("type", .str "goomba"), ("behavior", .str "fly")]).objSet "behavior"
          (.str "patrol")) :=
  C10_enemies_mutated_in_place
    (.obj [("enemies", .arr [JSVal.obj
      [("x", .num (.fin 1)), ("y", .num (.fin 1)),
       ("type", .str "goomba"), ("behavior", .str "fly")]])])
    { valid := false,
      errors := [.noPlatforms, .badSpawnPoint, .badGoalPosition], data := none }
    (.obj [("enemies", .arr [JSVal.obj
      [("x", .num (.fin 1)), ("y", .num (.fin 1)),
       ("type", .str "goomba"), ("behavior", .str "patrol")]])])
    rfl _ rfl 0 _ rfl (by decide)

/-! ## C9 — spawn/goal fallback constants and truthy numeric x -/

theorem assembleResult_valid_elim (raw : JSVal) (vp : List JSVal)
    (steps : List (Bool × JSVal)) (ck : List JSVal) (res : VResult) (raw' : JSVal)
    (h : assembleResult raw vp steps ck = (res, raw')) (hv : res.valid = true) :
    res.errors = [] ∧
    res.data = some (mkLevelData raw vp (((steps.filter (·.1)).map (·.2)).take MAX_ENEMIES)
      ((ck.map normCoin).take MAX_COINS)) ∧
    platCountErrs raw = [] ∧
    noValidPlatErrs vp (platCountErrs raw) = [] ∧
    pointErrs raw "spawnPoint" .badSpawnPoint = [] ∧
    pointErrs raw "goalPosition" .badGoalPosition = [] ∧
    gapErrors (sortPlats vp) = [] := by
  unfold assembleResult at h
  dsimp only at h
  split at h
  · rename_i hE
    injection h with h1 h2
    simp only [List.isEmpty_iff, List.append_eq_nil] at hE
    refine ⟨?_, ?_, hE.1.1.1.1, hE.1.1.1.2, hE.1.1.2, hE.1.2, hE.2⟩
    · rw [← h1]
    · rw [← h1]
  · injection h with h1 h2
    rw [← h1] at hv
    simp at hv

theorem pointErrs_nil (raw : JSVal) (k : String) (e : VError)
    (h : pointErrs raw k e = []) :
    (raw.getFD k).jsTruthy = true ∧ ((raw.getFD k).getFD "x").isNumber = true := by
  unfold pointErrs at h
  dsimp only at h
  split at h
  · cases h
  · rename_i hc
    simpa using hc

theorem platCountErrs_nil (raw : JSVal) (h : platCountErrs raw = []) :
    (raw.getFD "platforms").isArr = true ∧ arrLen (raw.getFD "platforms") ≠ 0 ∧
    arrLen (raw.getFD "platforms") ≤ MAX_PLATFORMS := by
  unfold platCountErrs at h
  dsimp only at h
  split at h
  · cases h
  · rename_i hc1
    split at h
    · cases h
    · rename_i hc2
      have hA : (raw.getFD "platforms").isArr = true := by
        rcases hx : (raw.getFD "platforms").isArr with _ | _
        · exact absurd (by simp [hx]) hc1
        · rfl
      have hZ : arrLen (raw.getFD "platforms") ≠ 0 := by
        intro h0
        exact hc1 (by simp [h0])
      exact ⟨hA, hZ, Nat.not_lt.mp hc2⟩

theorem noValidPlatErrs_nil (vp : List JSVal) (h : noValidPlatErrs vp [] = []) :
    vp ≠ [] := by
  unfold noValidPlatErrs at h
  split at h
  · cases h
  · rename_i hc
    simpa using hc

theorem getOpt_eq_getFD_of_truthy (v : JSVal) (k : String) (h : v.jsTruthy = true) :
    v.getOpt k = v.getFD k := by
  cases v <;> simp_all [JSVal.jsTruthy, JSVal.getOpt]

/-- C9 (amended): on a successful validation, `data.spawnPoint.x` equals the
input's `spawnPoint.x` and `data.goalPosition.x` the input's
`goalPosition.x` whenever that x is a truthy number (nonzero and not NaN);
for a falsy numeric x (0 or NaN) the `||`-fallback constant replaces it even
though the x passed validation — see the counterexample with x = 0. -/
theorem C9_spawn_goal_truthy_x_preserved (raw : JSVal) (res : VResult) (raw' : JSVal)
    (h : validateLevelData raw = .ok (res, raw')) (hv : res.valid = true)
    (d : JSVal) (hd : res.data = some d) :
    (∀ n : JNum, ((raw.getFD "spawnPoint").getFD "x") = .num n → n.truthy = true →
        ((d.getFD "spawnPoint").getFD "x") = .num n) ∧
    (∀ n : JNum, ((raw.getFD "goalPosition").getFD "x") = .num n → n.truthy = true →
        ((d.getFD "goalPosition").getFD "x") = .num n) := by
  rcases validate_ok_elim raw (res, raw') h with ⟨hcond, hres⟩ | ⟨_, pl, vp, el, steps, cl, ck,
    _, _, _, _, _, _, hres⟩
  · have hres1 := congrArg Prod.fst hres
    dsimp only at hres1
    rw [hres1] at hv
    simp at hv
  · obtain ⟨_, hdata, _, _, hsp, hgp, _⟩ :=
      assembleResult_valid_elim raw vp steps ck res raw' hres.symm hv
    obtain ⟨hspT, _⟩ := pointErrs_nil raw "spawnPoint" .badSpawnPoint hsp
    obtain ⟨hgpT, _⟩ := pointErrs_nil raw "goalPosition" .badGoalPosition hgp
    have hdd : d = mkLevelData raw vp (((steps.filter (·.1)).map (·.2)).take MAX_ENEMIES)
        ((ck.map normCoin).take MAX_COINS) := by
      have := hd.symm.trans hdata
      injection this
    subst hdd
    constructor
    · intro n hx hnt
      have e1 : ((mkLevelData raw vp (((steps.filter (·.1)).map (·.2)).take MAX_ENEMIES)
          ((ck.map normCoin).take MAX_COINS)).getFD "spawnPoint").getFD "x" =
          ((raw.getFD "spawnPoint").getOpt "x").orDefault (.num (.fin 2)) := rfl
      rw [e1, getOpt_eq_getFD_of_truthy _ _ hspT, hx]
      unfold JSVal.orDefault
      rw [if_pos (by simpa [JSVal.jsTruthy] using hnt)]
    · intro n hx hnt
      have e1 : ((mkLevelData raw vp (((steps.filter (·.1)).map (·.2)).take MAX_ENEMIES)
          ((ck.map normCoin).take MAX_COINS)).getFD "goalPosition").getFD "x" =
          ((raw.getFD "goalPosition").getOpt "x").orDefault (.num (.fin 80)) := rfl
      rw [e1, getOpt_eq_getFD_of_truthy _ _ hgpT, hx]
      unfold JSVal.orDefault
      rw [if_pos (by simpa [JSVal.jsTruthy] using hnt)]

/-- C9 counterexample: with `spawnPoint.x = 0` — a valid number, so
validation succeeds — the returned data's `spawnPoint.x` is the fallback
constant 2, not the input's 0. -/
theorem C9_zero_x_replaced_counterexample :
    ((validateLevelData (.obj [
        ("platforms", .arr [.obj [("x", .num (.fin 0)), ("y", .num (.fin 0)),
          ("width", .num (.fin 10))]]),
        ("spawnPoint", .obj [("x", .num (.fin 0)), ("y", .num (.fin 2))]),
        ("goalPosition", .obj [("x", .num (.fin 80))])])).toOption.map
      (fun p => p.1.valid)) = some true ∧
    ((validateLevelData (.obj [
        ("platforms", .arr [.obj [("x", .num (.fin 0)), ("y", .num (.fin 0)),
          ("width", .num (.fin 10))]]),
        ("spawnPoint", .obj [("x", .num (.fin 0)), ("y", .num (.fin 2))]),
        ("goalPosition", .obj [("x", .num (.fin 80))])])).toOption.bind
      (fun p => p.1.data.map (fun d => (d.getFD "spawnPoint").getFD "x"))) =
      some (.num (.fin 2)) := ⟨rfl, rfl⟩

/-- C9 witness: with truthy numeric spawn/goal x (5 and 80) the returned data
preserves both. -/
theorem C9_spawn_goal_witness :
    ((JSVal.obj [
      ("platforms", .arr [.obj [("x", .num (.fin 0)), ("y", .num (.fin 0)),
        ("z", .num (.fin 0)), ("width", .num (.fin 10)), ("height", .num (.fin 1)),
        ("depth", .num (.fin 4)), ("type", .str "grass")]]),
      ("coins", .arr []),
      ("enemies", .arr []),
      ("difficulty", .num (.fin 1)),
      ("spawnPoint", .obj [("x", .num (.fin 5)), ("y", .num (.fin 2)), ("z", .num (.fin 0))]),
      ("goalPosition", .obj [("x", .num (.fin 80)), ("y", .num (.fin 0)),
        ("z", .num (.fin 0))])]).getFD "spawnPoint").getFD "x" = .num (.fin 5) :=
  (C9_spawn_goal_truthy_x_preserved
    (.obj [
      ("platforms", .arr [.obj [("x", .num (.fin 0)), ("y", .num (.fin 0)),
        ("width", .num (.fin 10))]]),
      ("spawnPoint", .obj [("x", .num (.fin 5)), ("y", .num (.fin 2))]),
      ("goalPosition", .obj [("x", .num (.fin 80))])])
    { valid := true, errors := [], data := some (.obj [
      ("platforms", .arr [.obj [("x", .num (.fin 0)), ("y", .num (.fin 0)),
        ("z", .num (.fin 0)), ("width", .num (.fin 10)), ("height", .num (.fin 1)),
        ("depth", .num (.fin 4)), ("type", .str "grass")]]),
      ("coins", .arr []),
      ("enemies", .arr []),
      ("difficulty", .num (.fin 1)),
      ("spawnPoint", .obj [("x", .num (.fin 5)), ("y", .num (.fin 2)), ("z", .num (.fin 0))]),
      ("goalPosition", .obj [("x", .num (.fin 80)), ("y", .num (.fin 0)),
        ("z", .num (.fin 0))])]) }
    (.obj [
      ("platforms", .arr [.obj [("x", .num (.fin 0)), ("y", .num (.fin 0)),
        ("width", .num (.fin 10))]]),
      ("spawnPoint", .obj [("x", .num (.fin 5)), ("y", .num (.fin 2))]),
      ("goalPosition", .obj [("x", .num (.fin 80))])])
    rfl rfl _ rfl).1 (.fin 5) rfl (by decide)

/-! ## C8 — bounds carried by every platform of a valid result -/

theorem platformOk_true_elim (p : JSVal) (h : platformOk p = .ok true) :
    (p.getFD "x").isNumber = true ∧ (p.getFD "y").isNumber = true ∧
    (p.getFD "width").isNumber = true ∧
    JNum.jlt (p.getFD "width").asNum MIN_PLATFORM_WIDTH = false ∧
    JNum.jlt (p.getFD "y").asNum (.fin (-5)) = false ∧
    JNum.jgt (p.getFD "y").asNum (.fin 15) = false := by
  rcases hn : isNullish p with _ | _
  · unfold platformOk at h
    rw [getF_ok p "x" hn, except_bind_ok, getF_ok p "y" hn, except_bind_ok] at h
    split at h
    · injection h with hq; cases hq
    · rename_i hxy
      rw [getF_ok p "width" hn, except_bind_ok] at h
      split at h
      · injection h with hq; cases hq
      · rename_i hw
        split at h
        · injection h with hq; cases hq
        · rename_i hy
          simp only [Bool.or_eq_true, Bool.not_eq_true', not_or, Bool.not_eq_false,
            Bool.not_eq_true] at hxy hw hy
          exact ⟨hxy.1, hxy.2, hw.1, hw.2, hy.1, hy.2⟩
  · exfalso
    cases p <;> simp [isNullish] at hn
    · rw [show platformOk JSVal.undef = Except.error () from rfl] at h
      exact Except.noConfusion h
    · rw [show platformOk JSVal.null = Except.error () from rfl] at h
      exact Except.noConfusion h

theorem y_in_range (n : JNum) (h1 : JNum.jlt n (.fin (-5)) = false)
    (h2 : JNum.jgt n (.fin 15) = false) :
    n = .nan ∨ (JNum.jle (.fin (-5)) n = true ∧ JNum.jle n (.fin 15) = true) := by
  cases n with
  | nan => exact Or.inl rfl
  | posInf => simp [JNum.jgt, JNum.jlt] at h2
  | negInf => simp [JNum.jlt] at h1
  | fin q =>
      right
      rw [jlt_fin] at h1
      rw [JNum.jgt, jlt_fin] at h2
      simp only [decide_eq_false_iff_not, not_lt] at h1 h2
      rw [jle_fin, jle_fin]
      simp [h1, h2]

theorem width_clamped (w : JNum) (h : JNum.jlt w MIN_PLATFORM_WIDTH = false) :
    JNum.jmax w MIN_PLATFORM_WIDTH = .nan ∨
    JNum.jle MIN_PLATFORM_WIDTH (JNum.jmax w MIN_PLATFORM_WIDTH) = true := by
  cases w with
  | nan => exact Or.inl (by simp [JNum.jmax])
  | posInf => exact Or.inr (by simp [JNum.jmax, JNum.jlt, JNum.jle, MIN_PLATFORM_WIDTH])
  | negInf => simp [JNum.jlt, MIN_PLATFORM_WIDTH] at h
  | fin q =>
      right
      rw [MIN_PLATFORM_WIDTH] at h ⊢
      rw [jlt_fin] at h
      simp only [decide_eq_false_iff_not, not_lt] at h
      rw [jmax_fin_fin, max_eq_left h, jle_fin]
      simpa using h

/-- C8 (amended): in every `valid: true` result, every platform of
`data.platforms` has x and y of JS number type; its y is NaN or within
[-5, 15]; and its width is NaN or at least the minimum platform width.  (The
claim's stronger "finite numeric x and y" is false: the filter's `typeof`
check admits NaN and the infinities, and a NaN y or width also slips through
the range comparisons — see the NaN-x counterexample.) -/
theorem C8_valid_platform_bounds (raw : JSVal) (res : VResult) (raw' : JSVal)
    (h : validateLevelData raw = .ok (res, raw')) (hv : res.valid = true)
    (d : JSVal) (hd : res.data = some d)
    (ps : List JSVal) (hps : d.getFD "platforms" = .arr ps) :
    ∀ p ∈ ps, (p.getFD "x").isNumber = true ∧ (p.getFD "y").isNumber = true ∧
      ((p.getFD "y").asNum = .nan ∨
        (JNum.jle (.fin (-5)) (p.getFD "y").asNum = true ∧
         JNum.jle (p.getFD "y").asNum (.fin 15) = true)) ∧
      ((p.getFD "width").asNum = .nan ∨
        JNum.jle MIN_PLATFORM_WIDTH (p.getFD "width").asNum = true) := by
  rcases validate_ok_elim raw (res, raw') h with ⟨hcond, hres⟩ | ⟨_, pl, vp, el, steps, cl, ck,
    _, h2, _, _, _, _, hres⟩
  · have hres1 := congrArg Prod.fst hres
    dsimp only at hres1
    rw [hres1] at hv
    simp at hv
  · obtain ⟨_, hdata, _, _, _, _, _⟩ :=
      assembleResult_valid_elim raw vp steps ck res raw' hres.symm hv
    have hdd : d = mkLevelData raw vp (((steps.filter (·.1)).map (·.2)).take MAX_ENEMIES)
        ((ck.map normCoin).take MAX_COINS) := by
      have := hd.symm.trans hdata
      injection this
    subst hdd
    have hplats : (mkLevelData raw vp (((steps.filter (·.1)).map (·.2)).take MAX_ENEMIES)
        ((ck.map normCoin).take MAX_COINS)).getFD "platforms" =
        .arr (vp.map normPlatform) := rfl
    rw [hplats] at hps
    injection hps with hps'
    subst hps'
    intro p hp
    obtain ⟨q, hq, hpq⟩ := List.mem_map.mp hp
    obtain ⟨-, hqok⟩ := filterE_mem h2 q hq
    obtain ⟨hx, hy, hwnum, hwlt, hy1, hy2⟩ := platformOk_true_elim q hqok
    subst hpq
    have ex : (normPlatform q).getFD "x" = q.getFD "x" := rfl
    have ey : (normPlatform q).getFD "y" = q.getFD "y" := rfl
    have ew : (normPlatform q).getFD "width" =
        .num (JNum.jmax (q.getFD "width").asNum MIN_PLATFORM_WIDTH) := rfl
    refine ⟨by rw [ex]; exact hx, by rw [ey]; exact hy, ?_, ?_⟩
    · rw [ey]
      exact y_in_range _ hy1 hy2
    · rw [ew]
      exact width_clamped _ hwlt

/-- C8 counterexample: a platform with `x = NaN` (a JS number by `typeof`)
passes every filter, so a `valid: true` result carries a platform whose x is
not finite — refuting "finite numeric x". -/
theorem C8_nan_x_counterexample :
    ((validateLevelData (.obj [
        ("platforms", .arr [.obj [("x", .num .nan), ("y", .num (.fin 0)),
          ("width", .num (.fin 5))]]),
        ("spawnPoint", .obj [("x", .num (.fin 2))]),
        ("goalPosition", .obj [("x", .num (.fin 80))])])).toOption.map
      (fun p => p.1.valid)) = some true ∧
    ((validateLevelData (.obj [
        ("platforms", .arr [.obj [("x", .num .nan), ("y", .num (.fin 0)),
          ("width", .num (.fin 5))]]),
        ("spawnPoint", .obj [("x", .num (.fin 2))]),
        ("goalPosition", .obj [("x", .num (.fin 80))])])).toOption.bind
      (fun p => p.1.data.map
        (fun d => (arrElems (d.getFD "platforms")).map (fun q => q.getFD "x")))) =
      some [.num .nan] := ⟨rfl, rfl⟩

/-- C8 witness: the amended bounds at the single platform of a concrete valid
result. -/
theorem C8_valid_platform_bounds_witness :
    ((JSVal.obj [("x", .num (.fin 0)), ("y", .num (.fin 0)), ("z", .num (.fin 0)),
        ("width", .num (.fin 10)), ("height", .num (.fin 1)), ("depth", .num (.fin 4)),
        ("type", .str "grass")]).getFD "x").isNumber = true ∧
    ((JSVal.obj [("x", .num (.fin 0)), ("y", .num (.fin 0)), ("z", .num (.fin 0)),
        ("width", .num (.fin 10)), ("height", .num (.fin 1)), ("depth", .num (.fin 4)),
        ("type", .str "grass")]).getFD "y").isNumber = true ∧
    (((JSVal.obj [("x", .num (.fin 0)), ("y", .num (.fin 0)), ("z", .num (.fin 0)),
        ("width", .num (.fin 10)), ("height", .num (.fin 1)), ("depth", .num (.fin 4)),
        ("type", .str "grass")]).getFD "y").asNum = .nan ∨
      (JNum.jle (.fin (-5)) ((JSVal.obj [("x", .num (.fin 0)), ("y", .num (.fin 0)),
        ("z", .num (.fin 0)), ("width", .num (.fin 10)), ("height", .num (.fin 1)),
        ("depth", .num (.fin 4)), ("type", .str "grass")]).getFD "y").asNum = true ∧
       JNum.jle ((JSVal.obj [("x", .num (.fin 0)), ("y", .num (.fin 0)),
        ("z", .num (.fin 0)), ("width", .num (.fin 10)), ("height", .num (.fin 1)),
        ("depth", .num (.fin 4)), ("type", .str "grass")]).getFD "y").asNum
        (.fin 15) = true)) ∧
    (((JSVal.obj [("x", .num (.fin 0)), ("y", .num (.fin 0)), ("z", .num (.fin 0)),
        ("width", .num (.fin 10)), ("height", .num (.fin 1)), ("depth", .num (.fin 4)),
        ("type", .str "grass")]).getFD "width").asNum = .nan ∨
      JNum.jle MIN_PLATFORM_WIDTH ((JSVal.obj [("x", .num (.fin 0)), ("y", .num (.fin 0)),
        ("z", .num (.fin 0)), ("width", .num (.fin 10)), ("height", .num (.fin 1)),
        ("depth", .num (.fin 4)), ("type", .str "grass")]).getFD "width").asNum = true) :=
  C8_valid_platform_bounds
    (.obj [
      ("platforms", .arr [.obj [("x", .num (.fin 0)), ("y", .num (.fin 0)),
        ("width", .num (.fin 10))]]),
      ("spawnPoint", .obj [("x", .num (.fin 5)), ("y", .num (.fin 2))]),
      ("goalPosition", .obj [("x", .num (.fin 80))])])
    { valid := true, errors := [], data := some (.obj [
      ("platforms", .arr [.obj [("x", .num (.fin 0)), ("y", .num (.fin 0)),
        ("z", .num (.fin 0)), ("width", .num (.fin 10)), ("height", .num (.fin 1)),
        ("depth", .num (.fin 4)), ("type", .str "grass")]]),
      ("coins", .arr []),
      ("enemies", .arr []),
      ("difficulty", .num (.fin 1)),
      ("spawnPoint", .obj [("x", .num (.fin 5)), ("y", .num (.fin 2)), ("z", .num (.fin 0))]),
      ("goalPosition", .obj [("x", .num (.fin 80)), ("y", .num (.fin 0)),
        ("z", .num (.fin 0))])]) }
    (.obj [
      ("platforms", .arr [.obj [("x", .num (.fin 0)), ("y", .num (.fin 0)),
        ("width", .num (.fin 10))]]),
      ("spawnPoint", .obj [("x", .num (.fin 5)), ("y", .num (.fin 2))]),
      ("goalPosition", .obj [("x", .num (.fin 80))])])
    rfl rfl _ rfl _ rfl
    (.obj [("x", .num (.fin 0)), ("y", .num (.fin 0)), ("z", .num (.fin 0)),
      ("width", .num (.fin 10)), ("height", .num (.fin 1)), ("depth", .num (.fin 4)),
      ("type", .str "grass")])
    (List.mem_singleton.mpr rfl)

/-! ## C3 — idempotence on valid output -/

theorem jmax_eq_left_of_not_lt (w : JNum) (h : JNum.jlt w MIN_PLATFORM_WIDTH = false) :
    JNum.jmax w MIN_PLATFORM_WIDTH = w := by
  cases w with
  | nan => rfl
  | posInf => rfl
  | negInf =>
      rw [MIN_PLATFORM_WIDTH] at h
      simp [JNum.jlt] at h
  | fin q =>
      rw [MIN_PLATFORM_WIDTH] at h ⊢
      rw [jlt_fin] at h
      simp only [decide_eq_false_iff_not, not_lt] at h
      rw [jmax_fin_fin, max_eq_left h]

theorem xOf_norm (p : JSVal) : xOf (normPlatform p) = xOf p := rfl

theorem yOf_norm (p : JSVal) : yOf (normPlatform p) = yOf p := rfl

theorem wOf_norm (p : JSVal) :
    wOf (normPlatform p) = JNum.jmax (p.getFD "width").asNum MIN_PLATFORM_WIDTH := rfl

theorem platformOk_norm (p : JSVal) (h : platformOk p = .ok true) :
    platformOk (normPlatform p) = .ok true := by
  obtain ⟨hx, hy, hwnum, hwlt, hy1, hy2⟩ := platformOk_true_elim p h
  have hxe : (normPlatform p).getFD "x" = p.getFD "x" := rfl
  have hye : (normPlatform p).getFD "y" = p.getFD "y" := rfl
  have hwe : (normPlatform p).getFD "width" =
      .num (JNum.jmax (p.getFD "width").asNum MIN_PLATFORM_WIDTH) := rfl
  unfold platformOk
  rw [getF_ok (normPlatform p) "x" rfl, except_bind_ok,
    getF_ok (normPlatform p) "y" rfl, except_bind_ok, hxe, hye]
  split
  · rename_i hc
    rw [hx, hy] at hc
    simp at hc
  · rw [getF_ok (normPlatform p) "width" rfl, except_bind_ok, hwe]
    split
    · rename_i hc
      rw [show (JSVal.num (JNum.jmax (p.getFD "width").asNum MIN_PLATFORM_WIDTH)).asNum =
          JNum.jmax (p.getFD "width").asNum MIN_PLATFORM_WIDTH from rfl,
        jmax_eq_left_of_not_lt _ hwlt, hwlt] at hc
      simp [JSVal.isNumber] at hc
    · split
      · rename_i hc
        rw [hy1, hy2] at hc
        simp at hc
      · rfl

theorem asArray_orEmpty_arr (xs : List JSVal) :
    asArray (orEmptyArr (.arr xs)) = .ok xs := rfl

theorem isArr_elim (v : JSVal) (h : v.isArr = true) : ∃ xs, v = .arr xs := by
  cases v
  all_goals first
    | exact ⟨_, rfl⟩
    | simp [JSVal.isArr] at h

theorem isNullish_normCoin (c : JSVal) : isNullish (normCoin c) = false := by
  cases c <;> rfl

theorem insertPlat_map_norm (a : JSVal) :
    ∀ l : List JSVal, insertPlat (normPlatform a) (l.map normPlatform) =
      (insertPlat a l).map normPlatform := by
  intro l
  induction l with
  | nil => rfl
  | cons b bs ih =>
      simp only [List.map_cons, insertPlat, xOf_norm]
      split
      · rfl
      · rw [ih]
        rfl

theorem foldl_insert_map_norm : ∀ (l acc : List JSVal),
    (l.map normPlatform).foldl (fun acc a => insertPlat a acc) (acc.map normPlatform) =
      (l.foldl (fun acc a => insertPlat a acc) acc).map normPlatform := by
  intro l
  induction l with
  | nil => intro acc; rfl
  | cons x xs ih =>
      intro acc
      simp only [List.map_cons, List.foldl_cons]
      rw [insertPlat_map_norm x acc]
      exact ih (insertPlat x acc)

theorem sortPlats_map_norm (l : List JSVal) :
    sortPlats (l.map normPlatform) = (sortPlats l).map normPlatform :=
  foldl_insert_map_norm l []

theorem insertPlat_mem (x : JSVal) : ∀ (l : List JSVal) (a : JSVal),
    a ∈ insertPlat x l → a = x ∨ a ∈ l := by
  intro l
  induction l with
  | nil =>
      intro a h
      simp only [insertPlat, List.mem_singleton] at h
      exact Or.inl h
  | cons b bs ih =>
      intro a h
      rw [insertPlat] at h
      split at h
      · rcases List.mem_cons.mp h with rfl | h2
        · exact Or.inl rfl
        · exact Or.inr h2
      · rcases List.mem_cons.mp h with rfl | h2
        · exact Or.inr (List.mem_cons_self _ _)
        · rcases ih a h2 with h3 | h3
          · exact Or.inl h3
          · exact Or.inr (List.mem_cons_of_mem _ h3)

theorem sortPlats_sub : ∀ (l acc : List JSVal) (a : JSVal),
    a ∈ l.foldl (fun acc x => insertPlat x acc) acc → a ∈ acc ∨ a ∈ l := by
  intro l
  induction l with
  | nil => intro acc a h; exact Or.inl h
  | cons x xs ih =>
      intro acc a h
      rw [List.foldl_cons] at h
      rcases ih (insertPlat x acc) a h with h2 | h2
      · rcases insertPlat_mem x acc a h2 with h3 | h3
        · exact Or.inr (h3 ▸ List.mem_cons_self _ _)
        · exact Or.inl h3
      · exact Or.inr (List.mem_cons_of_mem _ h2)

theorem sortPlats_mem (l : List JSVal) (a : JSVal) (h : a ∈ sortPlats l) : a ∈ l := by
  rcases sortPlats_sub l [] a h with h2 | h2
  · simp at h2
  · exact h2

theorem gapErrorsAux_map_norm : ∀ (rest : List JSVal) (i : Nat) (prev : JSVal),
    wOf (normPlatform prev) = wOf prev →
    (∀ p ∈ rest, wOf (normPlatform p) = wOf p) →
    gapErrorsAux i (normPlatform prev) (rest.map normPlatform) =
      gapErrorsAux i prev rest := by
  intro rest
  induction rest with
  | nil => intro i prev _ _; rfl
  | cons c cs ih =>
      intro i prev hprev hall
      have hc := hall c (List.mem_cons_self c cs)
      have hrest : ∀ p ∈ cs, wOf (normPlatform p) = wOf p :=
        fun p hp => hall p (List.mem_cons_of_mem c hp)
      simp only [List.map_cons, gapErrorsAux]
      simp only [xOf_norm, yOf_norm, hprev, hc]
      rw [ih (i + 1) c hc hrest]

theorem gapErrors_map_norm (l : List JSVal)
    (h : ∀ p ∈ l, wOf (normPlatform p) = wOf p) :
    gapErrors (l.map normPlatform) = gapErrors l := by
  cases l with
  | nil => rfl
  | cons p rest =>
      simp only [List.map_cons, gapErrors]
      exact gapErrorsAux_map_norm rest 1 p (h p (List.mem_cons_self p rest))
        (fun q hq => h q (List.mem_cons_of_mem p hq))

theorem orDefault_num_isNumber (a : JSVal) (n : JNum) (h : a.isNumber = true) :
    (a.orDefault (.num n)).isNumber = true := by
  unfold JSVal.orDefault
  split
  · exact h
  · rfl

theorem pointErrs_nil_intro (raw : JSVal) (k : String) (e : VError)
    (h1 : (raw.getFD k).jsTruthy = true)
    (h2 : ((raw.getFD k).getFD "x").isNumber = true) :
    pointErrs raw k e = [] := by
  unfold pointErrs
  simp [h1, h2]

theorem platCountErrs_arr (raw : JSVal) (xs : List JSVal)
    (h : raw.getFD "platforms" = .arr xs) (h2 : xs ≠ [])
    (h3 : xs.length ≤ MAX_PLATFORMS) :
    platCountErrs raw = [] := by
  have hz : (xs.length == 0) = false := by
    rcases xs with _ | ⟨a, as⟩
    · exact absurd rfl h2
    · rfl
  have hgt : ¬ (xs.length > MAX_PLATFORMS) := Nat.not_lt.mpr h3
  unfold platCountErrs
  dsimp only
  rw [h]
  simp only [JSVal.isArr, arrLen, Bool.not_true, Bool.false_or, hz]
  rw [if_neg (by simp), if_neg hgt]

theorem noValidPlatErrs_ne_nil (vp : List JSVal) (h : vp ≠ []) :
    noValidPlatErrs vp [] = [] := by
  cases vp with
  | nil => exact absurd rfl h
  | cons a as => rfl

theorem assembleResult_valid_intro (raw : JSVal) (vp : List JSVal)
    (steps : List (Bool × JSVal)) (ck : List JSVal)
    (h1 : platCountErrs raw = []) (h2 : noValidPlatErrs vp [] = [])
    (h3 : pointErrs raw "spawnPoint" .badSpawnPoint = [])
    (h4 : pointErrs raw "goalPosition" .badGoalPosition = [])
    (h5 : gapErrors (sortPlats vp) = []) :
    (assembleResult raw vp steps ck).1.valid = true := by
  unfold assembleResult
  dsimp only
  rw [h1, h2, h3, h4, h5]
  rfl

theorem validateLevelData_mk (raw : JSVal) (vp VE VC : List JSVal)
    (hallp : ∀ a ∈ vp.map normPlatform, platformOk a = .ok true)
    (steps2 : List (Bool × JSVal))
    (hsteps2 : mapE enemyStep (VE.map outEnemy) = .ok steps2)
    (ck2 : List JSVal) (hck2 : filterE coinOk VC = .ok ck2) :
    validateLevelData (mkLevelData raw vp VE VC) =
      .ok (assembleResult (mkLevelData raw vp VE VC) (vp.map normPlatform) steps2 ck2) := by
  have e1 : asArray (orEmptyArr ((mkLevelData raw vp VE VC).getFD "platforms")) =
      .ok (vp.map normPlatform) := rfl
  have e2 : asArray (orEmptyArr ((mkLevelData raw vp VE VC).getFD "enemies")) =
      .ok (VE.map outEnemy) := rfl
  have e3 : asArray (orEmptyArr ((mkLevelData raw vp VE VC).getFD "coins")) =
      .ok VC := rfl
  unfold validateLevelData
  rw [if_neg (by
    intro hh
    rw [show (!(mkLevelData raw vp VE VC).jsTruthy ||
        !(mkLevelData raw vp VE VC).typeofIsObject) = false from rfl] at hh
    exact Bool.false_ne_true hh)]
  rw [e1, except_bind_ok, filterE_all_true hallp, except_bind_ok,
    e2, except_bind_ok, hsteps2, except_bind_ok,
    e3, except_bind_ok, hck2, except_bind_ok]
  rfl

/-- C3: `validateLevelData` is idempotent on its own valid output — whenever
a call succeeds with `valid: true` and data `d`, running the validator again
on `d` also succeeds with `valid: true`.  (Every platform of `d` passed the
filter and normalisation only clamps width upward, spawn/goal were checked
and defaulting keeps a numeric x, the gap structure is unchanged since x, y
and — for filtered platforms — width survive normalisation, and the enemy
and coin outputs are plain objects that cannot throw.) -/
theorem C3_validate_idempotent (raw : JSVal) (res : VResult) (raw' : JSVal)
    (h : validateLevelData raw = .ok (res, raw')) (hv : res.valid = true)
    (d : JSVal) (hd : res.data = some d) :
    ∃ res2 raw2, validateLevelData d = .ok (res2, raw2) ∧ res2.valid = true := by
  rcases validate_ok_elim raw (res, raw') h with ⟨hcond, hres⟩ |
    ⟨hobj, pl, vp, el, steps, cl, ck, h1, h2, h3, h4, h5, h6, hres⟩
  · have hres1 := congrArg Prod.fst hres
    dsimp only at hres1
    rw [hres1] at hv
    simp at hv
  · obtain ⟨_, hdata, hpce, hnvp, hsp, hgp, hge⟩ :=
      assembleResult_valid_elim raw vp steps ck res raw' hres.symm hv
    have hdd : d = mkLevelData raw vp (((steps.filter (·.1)).map (·.2)).take MAX_ENEMIES)
        ((ck.map normCoin).take MAX_COINS) := by
      have hsd := hd.symm.trans hdata
      injection hsd
    subst hdd
    have hvpok : ∀ p ∈ vp, platformOk p = .ok true := fun p hp => (filterE_mem h2 p hp).2
    have hvpw : ∀ p ∈ vp, wOf (normPlatform p) = wOf p := by
      intro p hp
      obtain ⟨_, _, _, hwlt, _, _⟩ := platformOk_true_elim p (hvpok p hp)
      rw [wOf_norm]
      exact jmax_eq_left_of_not_lt _ hwlt
    have hnvp2 : noValidPlatErrs vp [] = [] := by
      rw [hpce] at hnvp
      exact hnvp
    have hvpne : vp ≠ [] := noValidPlatErrs_nil vp hnvp2
    obtain ⟨hArr, hNz, hLe⟩ := platCountErrs_nil raw hpce
    obtain ⟨xs, hxs⟩ := isArr_elim _ hArr
    have hplxs : xs = pl := by
      rw [hxs] at h1
      have h0 := (asArray_orEmpty_arr xs).symm.trans h1
      injection h0
    have hvplen : vp.length ≤ MAX_PLATFORMS := by
      have hlen := filterE_length_le h2
      have hxlen : arrLen (raw.getFD "platforms") = xs.length := by rw [hxs]; rfl
      calc vp.length ≤ pl.length := hlen
        _ = xs.length := by rw [hplxs]
        _ = arrLen (raw.getFD "platforms") := hxlen.symm
        _ ≤ MAX_PLATFORMS := hLe
    obtain ⟨hspT, hspN⟩ := pointErrs_nil raw "spawnPoint" .badSpawnPoint hsp
    obtain ⟨hgpT, hgpN⟩ := pointErrs_nil raw "goalPosition" .badGoalPosition hgp
    have hallp : ∀ a ∈ vp.map normPlatform, platformOk a = .ok true := by
      intro a ha
      obtain ⟨b, hb, rfl⟩ := List.mem_map.mp ha
      exact platformOk_norm b (hvpok b hb)
    obtain ⟨steps2, hsteps2⟩ := mapE_ok_of_all
      (((((steps.filter (·.1)).map (·.2)).take MAX_ENEMIES)).map outEnemy) (by
        intro a ha
        obtain ⟨b, hb, rfl⟩ := List.mem_map.mp ha
        exact enemyStep_ok _ rfl)
    obtain ⟨ck2, hck2⟩ := filterE_ok_of_all ((ck.map normCoin).take MAX_COINS) (by
      intro a ha
      obtain ⟨b, hb, rfl⟩ := List.mem_map.mp (List.take_subset _ _ ha)
      exact coinOk_ok _ (isNullish_normCoin b))
    have hrun := validateLevelData_mk raw vp
      (((steps.filter (·.1)).map (·.2)).take MAX_ENEMIES)
      ((ck.map normCoin).take MAX_COINS) hallp steps2 hsteps2 ck2 hck2
    refine ⟨_, _, hrun.trans (by rfl), ?_⟩
    apply assembleResult_valid_intro
    · apply platCountErrs_arr
      · rfl
      · intro hh
        exact hvpne (List.map_eq_nil_iff.mp hh)
      · rw [List.length_map]
        exact hvplen
    · apply noValidPlatErrs_ne_nil
      intro hh
      exact hvpne (List.map_eq_nil_iff.mp hh)
    · apply pointErrs_nil_intro
      · rfl
      have hxv : ((mkLevelData raw vp (((steps.filter (·.1)).map (·.2)).take MAX_ENEMIES)
          ((ck.map normCoin).take MAX_COINS)).getFD "spawnPoint").getFD "x" =
          ((raw.getFD "spawnPoint").getOpt "x").orDefault (.num (.fin 2)) := rfl
      rw [hxv, getOpt_eq_getFD_of_truthy _ _ hspT]
      exact orDefault_num_isNumber _ _ hspN
    · apply pointErrs_nil_intro
      · rfl
      have hxv : ((mkLevelData raw vp (((steps.filter (·.1)).map (·.2)).take MAX_ENEMIES)
          ((ck.map normCoin).take MAX_COINS)).getFD "goalPosition").getFD "x" =
          ((raw.getFD "goalPosition").getOpt "x").orDefault (.num (.fin 80)) := rfl
      rw [hxv, getOpt_eq_getFD_of_truthy _ _ hgpT]
      exact orDefault_num_isNumber _ _ hgpN
    · rw [sortPlats_map_norm,
        gapErrors_map_norm _ (fun p hp => hvpw p (sortPlats_mem vp p hp)), hge]

/-- C3 witness: revalidating the data produced by a concrete successful
validation succeeds again with `valid: true`. -/
theorem C3_validate_idempotent_witness :
    ∃ res2 raw2, validateLevelData (.obj [
      ("platforms", .arr [.obj [("x", .num (.fin 0)), ("y", .num (.fin 0)),
        ("z", .num (.fin 0)), ("width", .num (.fin 10)), ("height", .num (.fin 1)),
        ("depth", .num (.fin 4)), ("type", .str "grass")]]),
      ("coins", .arr []),
      ("enemies", .arr []),
      ("difficulty", .num (.fin 1)),
      ("spawnPoint", .obj [("x", .num (.fin 5)), ("y", .num (.fin 2)), ("z", .num (.fin 0))]),
      ("goalPosition", .obj [("x", .num (.fin 80)), ("y", .num (.fin 0)),
        ("z", .num (.fin 0))])]) = .ok (res2, raw2) ∧ res2.valid = true :=
  C3_validate_idempotent
    (.obj [
      ("platforms", .arr [.obj [("x", .num (.fin 0)), ("y", .num (.fin 0)),
        ("width", .num (.fin 10))]]),
      ("spawnPoint", .obj [("x", .num (.fin 5)), ("y", .num (.fin 2))]),
      ("goalPosition", .obj [("x", .num (.fin 80))])])
    { valid := true, errors := [], data := some (.obj [
      ("platforms", .arr [.obj [("x", .num (.fin 0)), ("y", .num (.fin 0)),
        ("z", .num (.fin 0)), ("width", .num (.fin 10)), ("height", .num (.fin 1)),
        ("depth", .num (.fin 4)), ("type", .str "grass")]]),
      ("coins", .arr []),
      ("enemies", .arr []),
      ("difficulty", .num (.fin 1)),
      ("spawnPoint", .obj [("x", .num (.fin 5)), ("y", .num (.fin 2)), ("z", .num (.fin 0))]),
      ("goalPosition", .obj [("x", .num (.fin 80)), ("y", .num (.fin 0)),
        ("z", .num (.fin 0))])]) }
    (.obj [
      ("platforms", .arr [.obj [("x", .num (.fin 0)), ("y", .num (.fin 0)),
        ("width", .num (.fin 10))]]),
      ("spawnPoint", .obj [("x", .num (.fin 5)), ("y", .num (.fin 2))]),
      ("goalPosition", .obj [("x", .num (.fin 80))])])
    rfl rfl
    (.obj [
      ("platforms", .arr [.obj [("x", .num (.fin 0)), ("y", .num (.fin 0)),
        ("z", .num (.fin 0)), ("width", .num (.fin 10)), ("height", .num (.fin 1)),
        ("depth", .num (.fin 4)), ("type", .str "grass")]]),
      ("coins", .arr []),
      ("enemies", .arr []),
      ("difficulty", .num (.fin 1)),
      ("spawnPoint", .obj [("x", .num (.fin 5)), ("y", .num (.fin 2)), ("z", .num (.fin 0))]),
      ("goalPosition", .obj [("x", .num (.fin 80)), ("y", .num (.fin 0)),
        ("z", .num (.fin 0))])])
    rfl

/-! ## C7 — fenced-block extraction versus the bare interior -/

theorem findSubIdx_none_cons (pat : List Char) (c : Char) (rest : List Char)
    (h : findSubIdx pat (c :: rest) = none) :
    pat.isPrefixOf (c :: rest) = false ∧ findSubIdx pat rest = none := by
  rw [findSubIdx] at h
  split at h
  · cases h
  · rename_i hp
    exact ⟨Bool.not_eq_true _ ▸ Bool.eq_false_iff.mpr hp, Option.map_eq_none'.mp h⟩

theorem findSubIdx_none_dropWhile (pat : List Char) (p : Char → Bool) :
    ∀ l : List Char, findSubIdx pat l = none → findSubIdx pat (l.dropWhile p) = none := by
  intro l
  induction l with
  | nil => intro h; exact h
  | cons c cs ih =>
      intro h
      obtain ⟨hnp, h'⟩ := findSubIdx_none_cons pat c cs h
      rw [List.dropWhile_cons]
      split
      · exact ih h'
      · exact h

theorem getLast?_dropWhile_ne (p : Char → Bool) (x : Char) :
    ∀ l : List Char, l.getLast? ≠ some x → (l.dropWhile p).getLast? ≠ some x := by
  intro l
  induction l with
  | nil => intro h; exact h
  | cons c cs ih =>
      intro h
      rw [List.dropWhile_cons]
      split
      · apply ih
        cases cs with
        | nil => simp
        | cons d ds =>
            rw [List.getLast?_cons_cons] at h
            exact h
      · exact h

theorem isPrefixOf_nil_left (l : List Char) : List.isPrefixOf ([] : List Char) l = true := by
  cases l <;> rfl

theorem fence_prefix_cons (a b c : Char) (l l2 : List Char) :
    ("```".data).isPrefixOf (a :: b :: c :: l) =
      ("```".data).isPrefixOf (a :: b :: c :: l2) := by
  show List.isPrefixOf _ _ = List.isPrefixOf _ _
  simp [List.isPrefixOf, isPrefixOf_nil_left]

theorem findSubIdx_fence_append : ∀ t : List Char,
    findSubIdx "```".data t = none → t.getLast? ≠ some '`' →
    findSubIdx "```".data (t ++ "```".data) = some t.length := by
  intro t
  induction t with
  | nil => intro _ _; rfl
  | cons c cs ih =>
      intro h1 h2
      obtain ⟨hnp, h1'⟩ := findSubIdx_none_cons _ _ _ h1
      cases cs with
      | nil =>
          have hc : ('`' == c) = false := by
            rw [beq_eq_false_iff_ne]
            intro hh
            exact h2 (by rw [List.getLast?_singleton, ← hh])
          have hp : ("```".data).isPrefixOf (c :: (([] : List Char) ++ "```".data)) =
              false := by
            show List.isPrefixOf _ _ = false
            simp [List.isPrefixOf, hc]
          rw [List.cons_append, findSubIdx, hp, if_neg Bool.false_ne_true]
          rfl
      | cons d ds =>
          have h2' : (d :: ds).getLast? ≠ some '`' := by
            rw [List.getLast?_cons_cons] at h2
            exact h2
          have hrec := ih h1' h2'
          have hp : ("```".data).isPrefixOf (c :: ((d :: ds) ++ "```".data)) = false := by
            cases ds with
            | nil =>
                have hd : ('`' == d) = false := by
                  rw [beq_eq_false_iff_ne]
                  intro hh
                  rw [List.getLast?_singleton] at h2'
                  exact h2' (by rw [← hh])
                show List.isPrefixOf _ _ = false
                simp [List.isPrefixOf, hd]
            | cons e es =>
                rw [show (c :: ((d :: e :: es) ++ "```".data)) =
                    (c :: d :: e :: (es ++ "```".data)) from rfl,
                  fence_prefix_cons c d e (es ++ "```".data) es]
                exact hnp
          rw [List.cons_append, findSubIdx, hp, if_neg Bool.false_ne_true, hrec]
          rfl

theorem dropWhile_ws_append_fence : ∀ a : List Char,
    (a ++ "```".data).dropWhile isJsWs = a.dropWhile isJsWs ++ "```".data := by
  intro a
  induction a with
  | nil =>
      rw [List.nil_append]
      rfl
  | cons c cs ih =>
      rw [List.cons_append]
      rcases hc : isJsWs c with _ | _
      · simp [List.dropWhile_cons, hc]
      · simp [List.dropWhile_cons, hc, ih]

theorem wrapJsonFence_data (s : String) :
    (wrapJsonFence s).data = '`' :: '`' :: '`' :: 'j' :: 's' :: 'o' :: 'n' ::
      (s.data ++ "```".data) := by
  rw [wrapJsonFence, String.data_append, String.data_append, List.append_assoc]
  rfl

theorem fenceGroupAt_wrap (s : String)
    (h1 : findSubIdx "```".data s.data = none)
    (h2 : s.data.getLast? ≠ some '`') :
    fenceGroupAt ('`' :: '`' :: '`' :: 'j' :: 's' :: 'o' :: 'n' ::
      (s.data ++ "```".data)) = some (s.data.dropWhile isJsWs) := by
  have ht1 : findSubIdx "```".data (s.data.dropWhile isJsWs) = none :=
    findSubIdx_none_dropWhile _ _ _ h1
  have ht2 : (s.data.dropWhile isJsWs).getLast? ≠ some '`' :=
    getLast?_dropWhile_ne _ _ _ h2
  have hfs := findSubIdx_fence_append _ ht1 ht2
  have hpre : ("```".data).isPrefixOf ('`' :: '`' :: '`' :: 'j' :: 's' :: 'o' :: 'n' ::
      (s.data ++ "```".data)) = true := by
    show (['`','`','`'] : List Char).isPrefixOf _ = true
    simp [List.isPrefixOf, isPrefixOf_nil_left]
  have hjson : ("json".data).isPrefixOf (('`' :: '`' :: '`' :: 'j' :: 's' :: 'o' :: 'n' ::
      (s.data ++ "```".data)).drop 3) = true := by
    rw [show (('`' :: '`' :: '`' :: 'j' :: 's' :: 'o' :: 'n' ::
        (s.data ++ "```".data)).drop 3) = 'j' :: 's' :: 'o' :: 'n' ::
        (s.data ++ "```".data) from rfl]
    show (['j','s','o','n'] : List Char).isPrefixOf _ = true
    simp [List.isPrefixOf, isPrefixOf_nil_left]
  have hdrop : ((('`' :: '`' :: '`' :: 'j' :: 's' :: 'o' :: 'n' ::
      (s.data ++ "```".data)).drop 3).drop 4) = s.data ++ "```".data := rfl
  unfold fenceGroupAt
  rw [if_pos hpre]
  dsimp only
  rw [if_pos hjson, hdrop, dropWhile_ws_append_fence, hfs]
  dsimp only
  rw [List.take_left]

theorem extractLevelJson_wrap (s : String)
    (h1 : findSubIdx "```".data s.data = none)
    (h2 : s.data.getLast? ≠ some '`') :
    extractLevelJson (wrapJsonFence s) = String.mk (s.data.dropWhile isJsWs) := by
  have hg := fenceGroupAt_wrap s h1 h2
  unfold extractLevelJson
  rw [wrapJsonFence_data, findFenceGroup, hg]

theorem dropWhile_idem (p : Char → Bool) : ∀ l : List Char,
    (l.dropWhile p).dropWhile p = l.dropWhile p := by
  intro l
  induction l with
  | nil => rfl
  | cons c cs ih =>
      rw [List.dropWhile_cons]
      split
      · exact ih
      · rename_i hc
        rw [List.dropWhile_cons, if_neg hc]

/-- C7 (amended): for every interior text that contains no ``` sequence and
does not end with a backtick, extracting the fenced block and parsing gives
exactly the same parse result (success or failure alike) as trimming and
parsing the interior alone.  (An interior containing ``` — e.g. a JSON string
with backticks in it — is truncated at its first ``` by the lazy fence match,
and the two sides differ: see the counterexample.) -/
theorem C7_fence_extraction_roundtrip (s : String)
    (h1 : findSubIdx "```".data s.data = none)
    (h2 : s.data.getLast? ≠ some '`') :
    levelResponseOf (wrapJsonFence s) = parseJSON (jsTrim s) := by
  unfold levelResponseOf
  rw [extractLevelJson_wrap s h1 h2]
  unfold jsTrim
  have he : jsTrimL ((String.mk (s.data.dropWhile isJsWs)).data) = jsTrimL s.data := by
    show jsTrimL (s.data.dropWhile isJsWs) = jsTrimL s.data
    unfold jsTrimL trimLead
    rw [dropWhile_idem]
  rw [he]

/-- C7 counterexample: the interior `"a```b"` — a JSON string containing a
backtick fence — parses on its own, but wrapped as a ```json fenced block the
extraction truncates it at the interior ``` and the parse fails, so the two
sides are not equal. -/
theorem C7_fence_extraction_counterexample :
    parseJSON (jsTrim "\"a```b\"") = some (.str "a```b") ∧
    levelResponseOf (wrapJsonFence "\"a```b\"") = none := ⟨rfl, rfl⟩

/-- C7 witness: the amended equivalence at a concrete backtick-free interior. -/
theorem C7_fence_extraction_witness :
    levelResponseOf (wrapJsonFence "[1, 2]") = parseJSON (jsTrim "[1, 2]") :=
  C7_fence_extraction_roundtrip "[1, 2]" rfl (by decide)

/-! ## C5 — sanitizer output guarantees -/

theorem ltShape_nil : ltShape [] := by
  intro a b h
  exact absurd h (by simp)

theorem ltShape_cons (c : Char) (t : List Char) (hc : c ≠ '<') (h : ltShape t) :
    ltShape (c :: t) := by
  intro a b hab
  cases a with
  | nil =>
      simp only [List.nil_append] at hab
      injection hab with h1 h2
      exact absurd h1 hc
  | cons a0 a' =>
      rw [List.cons_append] at hab
      injection hab with h1 h2
      exact h a' b h2

theorem ltShape_cons_lt_gt (t : List Char) (h : ltShape t) (ht : ∃ t', t = '>' :: t') :
    ltShape ('<' :: t) := by
  intro a b hab
  cases a with
  | nil =>
      simp only [List.nil_append] at hab
      injection hab with h1 h2
      subst h2
      exact Or.inl ht
  | cons a0 a' =>
      rw [List.cons_append] at hab
      injection hab with h1 h2
      exact h a' b h2

theorem ltShape_cons_lt_no_gt (t : List Char) (h : ltShape t) (hng : '>' ∉ t) :
    ltShape ('<' :: t) := by
  intro a b hab
  cases a with
  | nil =>
      simp only [List.nil_append] at hab
      injection hab with h1 h2
      subst h2
      exact Or.inr hng
  | cons a0 a' =>
      rw [List.cons_append] at hab
      injection hab with h1 h2
      exact h a' b h2

theorem ltShape_suff (l s : List Char) (h : s <:+ l) (hl : ltShape l) : ltShape s := by
  obtain ⟨x, hx⟩ := h
  intro a b hab
  exact hl (x ++ a) b (by rw [← hx, hab, List.append_assoc])

theorem ltShape_pref (l p : List Char) (h : p <+: l) (hl : ltShape l) : ltShape p := by
  obtain ⟨x, hx⟩ := h
  intro a b hab
  rcases hl a (b ++ x) (by rw [← hx, hab]; simp [List.append_assoc]) with h1 | h1
  · cases b with
    | nil => exact Or.inr (by simp)
    | cons b0 bs =>
        obtain ⟨b', hb'⟩ := h1
        rw [List.cons_append] at hb'
        injection hb' with hh1 hh2
        exact Or.inl ⟨bs, by rw [hh1]⟩
  · exact Or.inr (fun hg => h1 (List.mem_append.mpr (Or.inl hg)))

theorem findIdx_zero_gt (rest : List Char) (h : rest.findIdx? (· = '>') = some 0) :
    ∃ rest', rest = '>' :: rest' := by
  cases rest with
  | nil => cases h
  | cons r rs =>
      rw [List.findIdx?_cons] at h
      split at h
      · rename_i hp
        exact ⟨rs, by rw [show r = '>' from by simpa using hp]⟩
      · rw [List.findIdx?_succ] at h
        rcases ho : rs.findIdx? (· = '>') with _ | k
        · rw [ho] at h
          cases h
        · rw [ho] at h
          simp at h

theorem findIdx_none_not_mem (rest : List Char) (h : rest.findIdx? (· = '>') = none) :
    '>' ∉ rest := by
  intro hmem
  have := (List.findIdx?_eq_none_iff.mp h) '>' hmem
  simp at this

theorem stripTagsF_gt_head (f : Nat) (t : List Char) :
    ∃ t', stripTagsF f ('>' :: t) = '>' :: t' := by
  cases f with
  | zero => exact ⟨t, rfl⟩
  | succ g =>
      rw [stripTagsF]
      rw [if_neg (by decide)]
      exact ⟨stripTagsF g t, rfl⟩

theorem stripTagsF_ltShape : ∀ (f : Nat) (l : List Char), l.length ≤ f →
    ltShape (stripTagsF f l) := by
  intro f
  induction f with
  | zero =>
      intro l hl
      have h0 : l = [] := List.eq_nil_of_length_eq_zero (Nat.le_zero.mp hl)
      subst h0
      exact ltShape_nil
  | succ f ih =>
      intro l hl
      cases l with
      | nil => exact ltShape_nil
      | cons c rest =>
          have hrl : rest.length ≤ f := Nat.succ_le_succ_iff.mp hl
          rw [stripTagsF]
          by_cases hc : c = '<'
          · rw [if_pos hc]
            subst hc
            cases hidx : rest.findIdx? (· = '>') with
            | none =>
                have hng := findIdx_none_not_mem rest hidx
                show ltShape ('<' :: rest)
                intro a b hab
                cases a with
                | nil =>
                    simp only [List.nil_append] at hab
                    injection hab with h1 h2
                    subst h2
                    exact Or.inr hng
                | cons a0 a' =>
                    rw [List.cons_append] at hab
                    injection hab with h1 h2
                    right
                    intro hg
                    apply hng
                    rw [h2]
                    exact List.mem_append.mpr (Or.inr (List.mem_cons_of_mem _ hg))
            | some k =>
                cases k with
                | zero =>
                    obtain ⟨rest', hr'⟩ := findIdx_zero_gt rest hidx
                    show ltShape ('<' :: stripTagsF f rest)
                    refine ltShape_cons_lt_gt _ (ih rest hrl) ?_
                    rw [hr']
                    exact stripTagsF_gt_head f rest'
                | succ k =>
                    show ltShape (stripTagsF f (rest.drop (k + 2)))
                    apply ih
                    rw [List.length_drop]
                    omega
          · rw [if_neg hc]
            exact ltShape_cons c _ hc (ih rest hrl)

theorem mem_collapseWsF : ∀ (f : Nat) (l : List Char) (x : Char),
    x ∈ collapseWsF f l → x ∈ l ∨ x = ' ' := by
  intro f
  induction f with
  | zero => intro l x hx; exact Or.inl hx
  | succ f ih =>
      intro l x hx
      cases l with
      | nil => cases hx
      | cons c rest =>
          rw [collapseWsF] at hx
          split at hx
          · rcases List.mem_cons.mp hx with rfl | h2
            · exact Or.inr rfl
            · rcases ih _ x h2 with h3 | h3
              · exact Or.inl (List.mem_cons_of_mem _
                  ((List.dropWhile_suffix _).subset h3))
              · exact Or.inr h3
          · rcases List.mem_cons.mp hx with rfl | h2
            · exact Or.inl (List.mem_cons_self _ _)
            · rcases ih _ x h2 with h3 | h3
              · exact Or.inl (List.mem_cons_of_mem _ h3)
              · exact Or.inr h3

theorem collapseWsF_gt_head (f : Nat) (t : List Char) :
    ∃ t', collapseWsF f ('>' :: t) = '>' :: t' := by
  cases f with
  | zero => exact ⟨t, rfl⟩
  | succ g =>
      rw [collapseWsF]
      rw [if_neg (by decide)]
      exact ⟨collapseWsF g t, rfl⟩

theorem collapseWsF_ltShape : ∀ (f : Nat) (l : List Char), ltShape l →
    ltShape (collapseWsF f l) := by
  intro f
  induction f with
  | zero => intro l h; exact h
  | succ f ih =>
      intro l h
      cases l with
      | nil => exact ltShape_nil
      | cons c rest =>
          have hrest : ltShape rest := ltShape_suff _ _ ⟨[c], rfl⟩ h
          rw [collapseWsF]
          by_cases hws : isJsWs c = true
          · rw [if_pos hws]
            apply ltShape_cons ' ' _ (by decide)
            exact ih _ (ltShape_suff _ _ (List.dropWhile_suffix _) hrest)
          · rw [if_neg hws]
            by_cases hlt : c = '<'
            · subst hlt
              rcases h [] rest rfl with ⟨r', hr'⟩ | hng
              · subst hr'
                exact ltShape_cons_lt_gt _ (ih _ hrest) (collapseWsF_gt_head f r')
              · apply ltShape_cons_lt_no_gt _ (ih _ hrest)
                intro hmem
                rcases mem_collapseWsF f rest '>' hmem with h2 | h2
                · exact hng h2
                · exact absurd h2 (by decide)
            · exact ltShape_cons c _ hlt (ih _ hrest)

theorem trimTrail_pref (l : List Char) : trimTrail l <+: l := by
  obtain ⟨t, ht⟩ := List.dropWhile_suffix (l := l.reverse) isJsWs
  refine ⟨t.reverse, ?_⟩
  rw [trimTrail, ← List.reverse_append, ht, List.reverse_reverse]

theorem ltShape_post (l6 : List Char) : ltShape (jsTrimL (collapseWs (stripTags l6))) := by
  show ltShape (trimTrail (trimLead (collapseWs (stripTags l6))))
  apply ltShape_pref (trimLead (collapseWs (stripTags l6))) _ (trimTrail_pref _)
  apply ltShape_suff (collapseWs (stripTags l6)) _ (List.dropWhile_suffix _)
  show ltShape (collapseWsF (stripTags l6).length (stripTags l6))
  apply collapseWsF_ltShape
  show ltShape (stripTagsF l6.length l6)
  exact stripTagsF_ltShape _ _ le_rfl

theorem string_mk_data (l : List Char) : (String.mk l).data = l := rfl

theorem string_mk_length (l : List Char) : (String.mk l).length = l.length := rfl

theorem sanitizeInput_str_eq (s : String) (maxLength : Nat) :
    sanitizeInput (.str s) maxLength = String.mk
      (if (jsTrimL (collapseWs (stripTags (runPat try6 (stripFences (runPatCtx try4
          (runPat try3 (runPat try2 (runPat try1 s.data))))))))).length > maxLength
      then (jsTrimL (collapseWs (stripTags (runPat try6 (stripFences (runPatCtx try4
          (runPat try3 (runPat try2 (runPat try1 s.data))))))))).take maxLength
      else jsTrimL (collapseWs (stripTags (runPat try6 (stripFences (runPatCtx try4
          (runPat try3 (runPat try2 (runPat try1 s.data))))))))) := rfl

theorem ltShape_sanitize (s : String) (maxLength : Nat) :
    ltShape (sanitizeInput (.str s) maxLength).data := by
  rw [sanitizeInput_str_eq, string_mk_data]
  have h9 := ltShape_post (runPat try6 (stripFences (runPatCtx try4
    (runPat try3 (runPat try2 (runPat try1 s.data))))))
  split
  · exact ltShape_pref _ _ (List.take_prefix _ _) h9
  · exact h9

theorem noScriptTag_of_ltShape (s : String) (h : ltShape s.data) : noScriptTag s := by
  rintro ⟨u, v, w, hl⟩
  have hb : s.data = u ++ '<' :: ('s' :: 'c' :: 'r' :: 'i' :: 'p' :: 't' :: '>' ::
      (v ++ ("</script>".data ++ w))) := by
    rw [hl]
    simp only [List.append_assoc]
    rfl
  rcases h u _ hb with ⟨b', hb'⟩ | hng
  · injection hb' with hh1 hh2
    exact absurd hh1 (by decide)
  · exact hng (by simp)

theorem noScriptTag_empty : noScriptTag "" := by
  rintro ⟨u, v, w, h⟩
  have h0 : ("" : String).data = [] := rfl
  rw [h0] at h
  have hlen := congrArg List.length h
  simp at hlen
  omega

/-- C5 (amended): for every input value and maxLength, the sanitizer returns
a string of length at most maxLength that contains no `<script>`...`</script>`
substring, and a non-string input yields the empty string without raising.
(The claim's further "no fenced-code substring" guarantee is false: removing
an HTML tag can join backticks on its two sides into a fresh ``` fence after
the single fence-stripping pass already ran — see the counterexample.) -/
theorem C5_sanitize_guarantees :
    (∀ (input : JSVal) (maxLength : Nat),
        (sanitizeInput input maxLength).length ≤ maxLength) ∧
    (∀ (input : JSVal) (maxLength : Nat),
        noScriptTag (sanitizeInput input maxLength)) ∧
    (∀ (input : JSVal) (maxLength : Nat), input.isString = false →
        sanitizeInput input maxLength = "") := by
  refine ⟨?_, ?_, ?_⟩
  · intro input maxLength
    cases input
    case str s =>
      rw [sanitizeInput_str_eq, string_mk_length]
      split
      · rw [List.length_take]
        exact min_le_left _ _
      · rename_i hgt
        exact Nat.not_lt.mp hgt
    all_goals exact Nat.zero_le _
  · intro input maxLength
    cases input
    case str s => exact noScriptTag_of_ltShape _ (ltShape_sanitize s maxLength)
    all_goals exact noScriptTag_empty
  · intro input maxLength h
    cases input
    case str s => simp [JSVal.isString] at h
    all_goals rfl

/-- C5 counterexample: sanitizing the string composed of two backticks, a
`<b>` tag, one backtick, `x` and a closing triple fence yields exactly a
triple-backtick fence around `x` — the tag removal runs after the one-shot
fence stripping and fuses the stray backticks into a fresh fenced-code pair,
refuting the "no fenced-code substring" clause. -/
theorem C5_fenced_output_counterexample :
    hasFencedPair (sanitizeInput (.str "``<b>`x```") 200) = true := rfl
